import Mathlib

/-!
Verification of the stage-pipeline orchestrator of the
`billion-dollar-company` repository (`celery_tasks.py`,
`ai_providers.py`, `database.py`, the stage routes of `app.py`).

The mutable database rows (`Project` / `Agent` / `Task` /
`AgentExecution`) are embedded as records inside an explicit `DB` state,
and each orchestration function is translated into a state-passing Lean
function.  The external language-model provider
(`OllamaProvider.generate`) is abstracted by an oracle
`Nat → ExecOutcome` giving, per agent id, whether the provider call
succeeds, returns a business failure (`success=False` with an error
string), or raises a Python exception; exceptions are modelled with
`Except`.  Numeric fields are modelled with `ℚ` (exact arithmetic).
Wall-clock timestamps, token/cost metrics and the provider response text
are not tracked: no verified property mentions them, and they do not
influence any branch of the orchestration code.
-/

namespace BillionDollar

/-- Outcome of one provider call for a given agent: the call succeeds
(`ok`), returns a business failure (`fail err`, i.e. `success=False`
with error string `err`), or raises a Python exception with message
`msg` (`exn msg`). -/
inductive ExecOutcome where
  | ok : ExecOutcome
  | fail (err : String) : ExecOutcome
  | exn (msg : String) : ExecOutcome
deriving DecidableEq

/-- Row of the `projects` table (`database.py`, class `Project`);
only the columns read or written by the orchestrator are kept. -/
structure Project where
  id : Nat
  user_id : Nat
  idea_source : String := ""
  stage : Nat := 1
  status : String := "idea"
  completion_percentage : ℚ := 0
deriving DecidableEq

/-- Row of the `agents` table (`database.py`, class `Agent`). -/
structure Agent where
  id : Nat
  name : String
  stage : Nat
  is_active : Bool := true
  status : String := "idle"
  total_executions : Nat := 0
  success_rate : ℚ := 0
deriving DecidableEq

/-- Row of the `tasks` table (`database.py`, class `Task`). -/
structure Task where
  id : Nat
  project_id : Nat
  agent_id : Option Nat := none
  title : String := ""
  stage : Nat
  status : String := "pending"
  error_message : Option String := none
deriving DecidableEq

/-- Row of the `agent_executions` table (`database.py`,
class `AgentExecution`). -/
structure AgentExecution where
  id : Nat
  agent_id : Nat
  project_id : Option Nat := none
  task_id : Option Nat := none
  input_prompt : String := ""
  success : Bool
  error_message : Option String := none
deriving DecidableEq

/-- The relational state the orchestrator mutates.  `nextTaskId` and
`nextExecId` model the autoincrement primary-key counters of the
persistence layer. -/
structure DB where
  projects : List Project := []
  agents : List Agent := []
  tasks : List Task := []
  executions : List AgentExecution := []
  nextTaskId : Nat := 1
  nextExecId : Nat := 1
deriving DecidableEq

/-- `db.session.get(Project, pid)`. -/
def DB.getProject (db : DB) (pid : Nat) : Option Project :=
  db.projects.find? (fun p => p.id == pid)

/-- `db.session.get(Agent, aid)`. -/
def DB.getAgent (db : DB) (aid : Nat) : Option Agent :=
  db.agents.find? (fun a => a.id == aid)

/-- `db.session.get(Task, tid)`. -/
def DB.getTask (db : DB) (tid : Nat) : Option Task :=
  db.tasks.find? (fun t => t.id == tid)

/-- Attribute assignment on a fetched project row, followed by commit. -/
def DB.updateProject (db : DB) (pid : Nat) (f : Project → Project) : DB :=
  { db with projects := db.projects.map (fun p => if p.id == pid then f p else p) }

/-- Attribute assignment on a fetched agent row, followed by commit. -/
def DB.updateAgent (db : DB) (aid : Nat) (f : Agent → Agent) : DB :=
  { db with agents := db.agents.map (fun a => if a.id == aid then f a else a) }

/-- Attribute assignment on a fetched task row, followed by commit. -/
def DB.updateTask (db : DB) (tid : Nat) (f : Task → Task) : DB :=
  { db with tasks := db.tasks.map (fun t => if t.id == tid then f t else t) }

/-- Whether an agent row with the given id exists. -/
def DB.hasAgent (db : DB) (aid : Nat) : Bool :=
  (db.getAgent aid).isSome

/-- Well-formedness of the relational state: primary keys are unique and
below the autoincrement counters.  Every state reachable from an empty
database through the modelled operations satisfies this. -/
def DB.WF (db : DB) : Prop :=
  (db.tasks.map (fun t => t.id)).Nodup ∧
  (∀ t ∈ db.tasks, t.id < db.nextTaskId) ∧
  (db.agents.map (fun a => a.id)).Nodup

instance (db : DB) : Decidable db.WF := by
  unfold DB.WF; infer_instance

/-- Python's `round` to the nearest integer, halves to the nearest even
integer (banker's rounding), on exact rationals. -/
def pyRoundHalfEven (q : ℚ) : ℤ :=
  let f : ℤ := Int.fdiv q.num q.den
  let r : ℚ := q - (f : ℚ)
  if r < 1/2 then f
  else if 1/2 < r then f + 1
  else if f % 2 = 0 then f else f + 1

/-- Python's `round(x, 2)` on exact rationals. -/
def pyRound2 (q : ℚ) : ℚ :=
  ((pyRoundHalfEven (q * 100) : ℚ)) / 100

/-- Result dictionary returned by `AIProviderFactory.execute_agent`
(`ai_providers.py` lines 202-210), restricted to the keys the
orchestrator reads. -/
structure ExecResult where
  success : Bool
  execution_id : Option Nat
  error : Option String
deriving DecidableEq

/-- `AIProviderFactory.execute_agent` (`ai_providers.py` lines 143-210).

The provider call `provider.generate(...)` is abstracted by
`oracle agent_id`.  When the oracle yields `ok` or `fail err`, the call
returns normally (the Ollama provider converts its own errors into
`success=False` responses): one `AgentExecution` row is inserted and the
agent's `total_executions` / `success_rate` counters are updated per
lines 192-198.  When the oracle yields `exn msg`, the operation raises
(modelling a structural failure inside the provider call, e.g. a broken
database session) before any record is written. -/
def execute_agent (oracle : Nat → ExecOutcome) (db : DB) (aid : Nat)
    (prompt : String) (projectId taskId : Option Nat) :
    DB × Except String ExecResult :=
  match oracle aid with
  | .exn msg => (db, .error msg)
  | outcome =>
    let success := outcome matches .ok
    let err : Option String := match outcome with
      | .fail e => some e
      | _ => none
    let execId := db.nextExecId
    let db1 : DB :=
      { db with
        executions := db.executions ++
          [{ id := execId, agent_id := aid, project_id := projectId,
             task_id := taskId, input_prompt := prompt,
             success := success, error_message := err }],
        nextExecId := execId + 1 }
    let db2 := db1.updateAgent aid (fun a =>
      { a with
        total_executions := a.total_executions + 1,
        success_rate :=
          (a.success_rate * (a.total_executions : ℚ) +
            (if success then 100 else 0)) / ((a.total_executions : ℚ) + 1) })
    (db2, .ok { success := success, execution_id := some execId, error := err })

/-- `update_project_progress` (`celery_tasks.py` lines 323-350): returns
`0` when the project is missing or has no tasks; otherwise stores the
rounded completion percentage and returns the unrounded value. -/
def update_project_progress (db : DB) (pid : Nat) : DB × ℚ :=
  match db.getProject pid with
  | none => (db, 0)
  | some _ =>
    let total := (db.tasks.filter (fun t => t.project_id == pid)).length
    let completed := (db.tasks.filter
      (fun t => t.project_id == pid && t.status == "completed")).length
    if total > 0 then
      let completion : ℚ := ((completed : ℚ) / (total : ℚ)) * 100
      (db.updateProject pid
        (fun p => { p with completion_percentage := pyRound2 completion }),
       completion)
    else
      (db, 0)

/-- `execute_agent_async` (`celery_tasks.py` lines 54-152), the Celery
entry point for a single agent execution.  On the exception path
(lines 135-152) the agent status is set to `error` and the bound task,
if any, is failed with the error message truncated to 500 characters;
the exception is then re-raised. -/
def execute_agent_async (oracle : Nat → ExecOutcome) (db : DB)
    (aid : Nat) (prompt : String) (projectId taskId : Option Nat) :
    DB × Except String ExecResult :=
  match db.getAgent aid with
  | none => (db, .error ("Agent " ++ toString aid ++ " not found"))
  | some _ =>
    let db1 := db.updateAgent aid (fun a => { a with status := "running" })
    let db2 := match taskId with
      | some tid => db1.updateTask tid (fun t => { t with status := "processing" })
      | none => db1
    match execute_agent oracle db2 aid prompt projectId taskId with
    | (db3, .error msg) =>
      let db4 := db3.updateAgent aid (fun a => { a with status := "error" })
      let db5 := match taskId with
        | some tid => db4.updateTask tid
            (fun t => { t with status := "failed",
                               error_message := some (msg.take 500) })
        | none => db4
      (db5, .error msg)
    | (db3, .ok res) =>
      let db4 := match taskId, res.success with
        | some tid, true => db3.updateTask tid
            (fun t => { t with status := "completed" })
        | _, _ => db3
      let db5 := match projectId with
        | some pid => (update_project_progress db4 pid).1
        | none => db4
      let db6 := db5.updateAgent aid (fun a => { a with status := "idle" })
      (db6, .ok res)

/-- Per-agent entry of the `results` list built by
`process_project_pipeline` / `auto_run_project`.  A key absent from the
Python dict is modelled as `none`. -/
structure AgentOutcome where
  agent : String
  status : String
  execution_id : Option Nat := none
  error : Option String := none
deriving DecidableEq

/-- Return dictionary of `process_project_pipeline`
(`celery_tasks.py` lines 316-321). -/
structure StageResult where
  project_id : Nat
  stage : Nat
  agents_triggered : Nat
  results : List AgentOutcome
deriving DecidableEq

/-- The fixed `stage_status_map` of `celery_tasks.py` lines 306-312
(the same literal recurs in `auto_run_project` and `app.py`). -/
def stageStatusMap : Nat → Option String
  | 2 => some "validating"
  | 3 => some "developing"
  | 4 => some "marketing"
  | 5 => some "operating"
  | 6 => some "scaling"
  | _ => none

/-- The fresh `Task` rows created for a stage when none exist yet
(`celery_tasks.py` lines 177-190): one `pending` task per active agent
of the stage, with consecutive autoincrement ids starting at `nid`. -/
def mkStageTasks (pid s : Nat) : Nat → List Agent → List Task
  | _, [] => []
  | nid, a :: rest =>
    { id := nid, project_id := pid, agent_id := some a.id,
      title := a.name ++ " - Stage " ++ toString s, stage := s,
      status := "pending", error_message := none } ::
    mkStageTasks pid s (nid + 1) rest

/-- The task-ensuring prefix shared by `process_project_pipeline`
(lines 169-190) and `auto_run_project` (lines 455-476): reuse the
existing tasks of `(project, stage)` when any exist, otherwise create
one `pending` task per active agent of the stage.  Returns the ids of
the tasks to process, in creation order. -/
def ensureTasks (db : DB) (pid s : Nat) : DB × List Nat :=
  let existing := db.tasks.filter (fun t => t.project_id == pid && t.stage == s)
  if existing.isEmpty then
    let agents := db.agents.filter (fun a => a.stage == s && a.is_active)
    let newTasks := mkStageTasks pid s db.nextTaskId agents
    ({ db with tasks := db.tasks ++ newTasks,
               nextTaskId := db.nextTaskId + newTasks.length },
     newTasks.map (fun t => t.id))
  else
    (db, existing.map (fun t => t.id))

/-- Task status transition to `processing` (with `started_at`, not
modelled). -/
def Task.toProcessing (u : Task) : Task := { u with status := "processing" }

/-- Task status transition to `completed` (with `completed_at`, not
modelled); the error message of an earlier failed attempt is not
cleared, exactly as in the source. -/
def Task.toCompleted (u : Task) : Task := { u with status := "completed" }

/-- Task status transition to `failed` with the given error message. -/
def Task.toFailed (msg : String) (u : Task) : Task :=
  { u with status := "failed", error_message := some msg }

/-- One iteration of the per-task loop shared by
`process_project_pipeline` (lines 193-299) and `auto_run_project`
(lines 479-538).  Returns the updated state, the `results` entries
appended by the iteration, and whether `execute_agent` was invoked.

Differences between the two sources captured by `emitSkip`: the
auto-run loop appends a `completed` entry when it skips an already
completed task (lines 486-490), the pipeline loop appends nothing
(line 203).  In both loops an exception raised by the executor is
caught per task: the task is failed with the raw (untruncated) message
and a failed entry is appended (lines 278-299 resp. 529-538). -/
def runTask (oracle : Nat → ExecOutcome) (emitSkip : Bool) (db : DB)
    (pid : Nat) (prompt : String) (tid : Nat) :
    DB × List AgentOutcome × Bool :=
  match db.getTask tid with
  | none => (db, [], false)
  | some t =>
    match t.agent_id.bind db.getAgent with
    | none => (db, [], false)
    | some a =>
      if t.status == "completed" then
        (db,
         if emitSkip then
           [{ agent := a.name, status := "completed", execution_id := none }]
         else [],
         false)
      else
        let db1 := db.updateTask tid Task.toProcessing
        match execute_agent oracle db1 a.id prompt (some pid) (some tid) with
        | (db2, .ok res) =>
          if res.success then
            (db2.updateTask tid Task.toCompleted,
             [{ agent := a.name, status := "completed",
                execution_id := res.execution_id }],
             true)
          else
            let err := res.error.getD "Unknown error"
            (db2.updateTask tid (Task.toFailed err),
             [{ agent := a.name, status := "failed", error := some err }],
             true)
        | (db2, .error msg) =>
          (db2.updateTask tid (Task.toFailed msg),
           [{ agent := a.name, status := "failed", error := some msg }],
           true)

/-- The per-task loop over the ids returned by `ensureTasks`, in order.
The third component records the ids of the tasks for which
`execute_agent` was actually invoked. -/
def runTasks (oracle : Nat → ExecOutcome) (emitSkip : Bool) (db : DB)
    (pid : Nat) (prompt : String) : List Nat → DB × List AgentOutcome × List Nat
  | [] => (db, [], [])
  | tid :: rest =>
    let step := runTask oracle emitSkip db pid prompt tid
    let next := runTasks oracle emitSkip step.1 pid prompt rest
    (next.1, step.2.1 ++ next.2.1,
     (if step.2.2 then [tid] else []) ++ next.2.2)

/-- `process_project_pipeline` (`celery_tasks.py` lines 154-321), the
stage runner.  Only a missing project raises (lines 165-167); every
per-agent failure is absorbed into the `results` list.  After the loop
the project's `stage` is set to the stage just run and its `status` is
derived via `stageStatusMap` (lines 301-314).  The third component is
the executor-invocation log of `runTasks`. -/
def process_project_pipeline (oracle : Nat → ExecOutcome) (db : DB)
    (pid s : Nat) : DB × Except String StageResult × List Nat :=
  match db.getProject pid with
  | none => (db, .error ("Project " ++ toString pid ++ " not found"), [])
  | some proj =>
    let ens := ensureTasks db pid s
    let run := runTasks oracle false ens.1 pid proj.idea_source ens.2
    let db1 := run.1.updateProject pid (fun p =>
      { p with stage := s, status := (stageStatusMap s).getD p.status })
    (db1,
     .ok { project_id := pid, stage := s,
           agents_triggered := run.2.1.length, results := run.2.1 },
     run.2.2)

/-- Per-stage entry of the `results` list built by `auto_run_project`
(lines 559-563 for a processed stage, 571-575 for a stage-level
exception). -/
structure StageEntry where
  stage : Nat
  status : String
  error : Option String := none
  result : Option StageResult := none
deriving DecidableEq

/-- Return value of `auto_run_project`: either the access-denied
dictionary of line 438 or the success dictionary of lines 578-583. -/
inductive AutoRunAnswer where
  | denied (error : String) : AutoRunAnswer
  | done (project_id final_stage : Nat) (results : List StageEntry) : AutoRunAnswer
deriving DecidableEq

/-- The body of one iteration of `auto_run_project`'s stage loop, i.e.
the `try` block of lines 447-568 entered after the skip check.  The
project's `stage` is set and committed first (lines 449-450).  A
stage-level exception — one raised by the stage's task bookkeeping
rather than inside the per-agent handler — is modelled by the oracle
`stageFault` and fires after that commit, yielding the `except` entry
of lines 570-575.  Exceptions raised by the executor itself are caught
per agent inside `runTask` (lines 529-538) and never reach this level.
The inter-stage `time.sleep(600)` of line 568 suspends without touching
any state and is not modelled. -/
def auto_run_stage (oracle : Nat → ExecOutcome) (stageFault : Nat → Option String)
    (db : DB) (pid s : Nat) (prompt : String) : DB × StageEntry :=
  let db1 := db.updateProject pid (fun p => { p with stage := s })
  match stageFault s with
  | some msg => (db1, { stage := s, status := "failed", error := some msg })
  | none =>
    let ens := ensureTasks db1 pid s
    let run := runTasks oracle true ens.1 pid prompt ens.2
    let db2 := run.1.updateProject pid (fun p =>
      { p with status := (stageStatusMap s).getD p.status })
    (db2,
     { stage := s, status := "completed",
       result := some { project_id := pid, stage := s,
                        agents_triggered := run.2.1.length,
                        results := run.2.1 } })

/-- The `for stage in range(1, 7)` loop of `auto_run_project`
(lines 443-576): stages the project has already reached are skipped
(lines 444-445), a stage-level exception appends a failed entry and
stops the loop (`break`, line 576). -/
def auto_run_loop (oracle : Nat → ExecOutcome) (stageFault : Nat → Option String)
    (db : DB) (pid : Nat) (prompt : String) :
    List Nat → DB × List StageEntry
  | [] => (db, [])
  | s :: rest =>
    match db.getProject pid with
    | none => (db, [])
    | some p =>
      if p.stage ≥ s then
        auto_run_loop oracle stageFault db pid prompt rest
      else
        let step := auto_run_stage oracle stageFault db pid s prompt
        if step.2.status == "failed" then
          (step.1, [step.2])
        else
          let next := auto_run_loop oracle stageFault step.1 pid prompt rest
          (next.1, step.2 :: next.2)

/-- `auto_run_project` (`celery_tasks.py` lines 422-583): drives the
project through stages 1-6 and reports `final_stage` as the project's
`stage` column at the end of the loop. -/
def auto_run_project (oracle : Nat → ExecOutcome)
    (stageFault : Nat → Option String) (db : DB) (pid uid : Nat) :
    DB × AutoRunAnswer :=
  match db.getProject pid with
  | none => (db, .denied "Project not found or access denied")
  | some p =>
    if p.user_id ≠ uid then
      (db, .denied "Project not found or access denied")
    else
      let loop := auto_run_loop oracle stageFault db pid p.idea_source
        [1, 2, 3, 4, 5, 6]
      (loop.1,
       .done pid (((loop.1.getProject pid).map (fun q => q.stage)).getD 0)
         loop.2)

/-! ### Helper lemmas about the state accessors -/

theorem map_eq_self_of_mem {α : Type} {l : List α} {f : α → α}
    (h : ∀ a ∈ l, f a = a) : l.map f = l := by
  induction l with
  | nil => rfl
  | cons a t ih => simp [h a (by simp), ih (fun b hb => h b (by simp [hb]))]

theorem getTask_updateTask (db : DB) (tid tid2 : Nat) (f : Task → Task)
    (hf : ∀ t, (f t).id = t.id) :
    (db.updateTask tid f).getTask tid2 =
      (db.getTask tid2).map (fun t => if t.id == tid then f t else t) := by
  show (db.tasks.map fun t => if t.id == tid then f t else t).find?
      (fun t => t.id == tid2) = _
  rw [List.find?_map]
  have hp : ((fun t => t.id == tid2) ∘ fun t => if t.id == tid then f t else t) =
      (fun t => t.id == tid2) := by
    funext t
    by_cases h : t.id == tid <;> simp [Function.comp, h, hf]
  rw [hp]
  rfl

theorem getAgent_updateAgent (db : DB) (aid aid2 : Nat) (f : Agent → Agent)
    (hf : ∀ a, (f a).id = a.id) :
    (db.updateAgent aid f).getAgent aid2 =
      (db.getAgent aid2).map (fun a => if a.id == aid then f a else a) := by
  show (db.agents.map fun a => if a.id == aid then f a else a).find?
      (fun a => a.id == aid2) = _
  rw [List.find?_map]
  have hp : ((fun a => a.id == aid2) ∘ fun a => if a.id == aid then f a else a) =
      (fun a => a.id == aid2) := by
    funext a
    by_cases h : a.id == aid <;> simp [Function.comp, h, hf]
  rw [hp]
  rfl

theorem getProject_updateProject (db : DB) (pid pid2 : Nat)
    (f : Project → Project) (hf : ∀ p, (f p).id = p.id) :
    (db.updateProject pid f).getProject pid2 =
      (db.getProject pid2).map (fun p => if p.id == pid then f p else p) := by
  show (db.projects.map fun p => if p.id == pid then f p else p).find?
      (fun p => p.id == pid2) = _
  rw [List.find?_map]
  have hp : ((fun p => p.id == pid2) ∘ fun p => if p.id == pid then f p else p) =
      (fun p => p.id == pid2) := by
    funext p
    by_cases h : p.id == pid <;> simp [Function.comp, h, hf]
  rw [hp]
  rfl

theorem getTask_id {db : DB} {tid : Nat} {t : Task}
    (h : db.getTask tid = some t) : t.id = tid := by
  simpa using List.find?_some h

theorem getTask_mem {db : DB} {tid : Nat} {t : Task}
    (h : db.getTask tid = some t) : t ∈ db.tasks :=
  List.mem_of_find?_eq_some h

theorem getAgent_id {db : DB} {aid : Nat} {a : Agent}
    (h : db.getAgent aid = some a) : a.id = aid := by
  simpa using List.find?_some h

theorem getProject_id {db : DB} {pid : Nat} {p : Project}
    (h : db.getProject pid = some p) : p.id = pid := by
  simpa using List.find?_some h

theorem getTask_of_mem {db : DB} (hn : (db.tasks.map (fun t => t.id)).Nodup)
    {t : Task} (ht : t ∈ db.tasks) : db.getTask t.id = some t := by
  cases hfind : db.getTask t.id with
  | none =>
    have := List.find?_eq_none.mp hfind t ht
    simp at this
  | some u =>
    have hu : u ∈ db.tasks := getTask_mem hfind
    have hid : u.id = t.id := getTask_id hfind
    have : u = t := List.inj_on_of_nodup_map hn hu ht hid
    rw [this]

/-- The name of the agent row with the given id, when it exists: the
view of the agent table that the per-task loop reads (besides the id
itself). -/
def DB.agentName (db : DB) (aid : Nat) : Option String :=
  (db.getAgent aid).map (fun a => a.name)

/-! ### Lemmas about `execute_agent` -/

theorem execute_agent_tasks (oracle : Nat → ExecOutcome) (db : DB)
    (aid : Nat) (pr : String) (projectId taskId : Option Nat) :
    (execute_agent oracle db aid pr projectId taskId).1.tasks = db.tasks := by
  cases h : oracle aid <;> simp [execute_agent, h, DB.updateAgent]

theorem execute_agent_projects (oracle : Nat → ExecOutcome) (db : DB)
    (aid : Nat) (pr : String) (projectId taskId : Option Nat) :
    (execute_agent oracle db aid pr projectId taskId).1.projects =
      db.projects := by
  cases h : oracle aid <;> simp [execute_agent, h, DB.updateAgent]

theorem agentName_updateAgent (db : DB) (aid aid2 : Nat) (f : Agent → Agent)
    (hid : ∀ a, (f a).id = a.id) (hnm : ∀ a, (f a).name = a.name) :
    (db.updateAgent aid f).agentName aid2 = db.agentName aid2 := by
  unfold DB.agentName
  rw [getAgent_updateAgent db aid aid2 f hid]
  cases hg : db.getAgent aid2 with
  | none => rfl
  | some a =>
    by_cases h : a.id = aid <;> simp [h, hnm]

theorem execute_agent_agentName (oracle : Nat → ExecOutcome) (db : DB)
    (aid : Nat) (pr : String) (projectId taskId : Option Nat) (aid2 : Nat) :
    (execute_agent oracle db aid pr projectId taskId).1.agentName aid2 =
      db.agentName aid2 := by
  cases h : oracle aid
  case exn msg => simp [execute_agent, h]
  all_goals
    simp only [execute_agent, h]
    rw [agentName_updateAgent]
    · rfl
    · intro a; rfl
    · intro a; rfl

theorem execute_agent_hasAgent (oracle : Nat → ExecOutcome) (db : DB)
    (aid : Nat) (pr : String) (projectId taskId : Option Nat) (aid2 : Nat) :
    (execute_agent oracle db aid pr projectId taskId).1.hasAgent aid2 =
      db.hasAgent aid2 := by
  have h := execute_agent_agentName oracle db aid pr projectId taskId aid2
  simp only [DB.agentName, DB.hasAgent] at h ⊢
  cases h1 : (execute_agent oracle db aid pr projectId taskId).1.getAgent aid2 <;>
    cases h2 : db.getAgent aid2 <;> simp_all

/-! ### Frame lemmas for the record updaters -/

@[simp] theorem updateTask_projects (db : DB) (tid : Nat) (f : Task → Task) :
    (db.updateTask tid f).projects = db.projects := rfl

@[simp] theorem updateTask_agents (db : DB) (tid : Nat) (f : Task → Task) :
    (db.updateTask tid f).agents = db.agents := rfl

@[simp] theorem updateAgent_tasks (db : DB) (aid : Nat) (f : Agent → Agent) :
    (db.updateAgent aid f).tasks = db.tasks := rfl

@[simp] theorem updateAgent_projects (db : DB) (aid : Nat) (f : Agent → Agent) :
    (db.updateAgent aid f).projects = db.projects := rfl

@[simp] theorem updateProject_tasks (db : DB) (pid : Nat) (f : Project → Project) :
    (db.updateProject pid f).tasks = db.tasks := rfl

@[simp] theorem updateProject_agents (db : DB) (pid : Nat) (f : Project → Project) :
    (db.updateProject pid f).agents = db.agents := rfl

theorem map_congr_mem {α β : Type} {l : List α} {f g : α → β}
    (h : ∀ a ∈ l, f a = g a) : l.map f = l.map g := by
  induction l with
  | nil => rfl
  | cons a t ih => simp [h a (by simp), ih fun b hb => h b (by simp [hb])]

theorem getTask_updateTask_ne (db : DB) {tid tid2 : Nat} (hne : tid2 ≠ tid)
    (f : Task → Task) (hf : ∀ t, (f t).id = t.id) :
    (db.updateTask tid f).getTask tid2 = db.getTask tid2 := by
  rw [getTask_updateTask db tid tid2 f hf]
  cases hg : db.getTask tid2 with
  | none => rfl
  | some t =>
    have ht : t.id = tid2 := getTask_id hg
    simp [ht, hne]

theorem getTask_updateTask_self (db : DB) {tid : Nat} {t : Task}
    (hg : db.getTask tid = some t) (f : Task → Task)
    (hf : ∀ u, (f u).id = u.id) :
    (db.updateTask tid f).getTask tid = some (f t) := by
  rw [getTask_updateTask db tid tid f hf, hg]
  have ht : t.id = tid := getTask_id hg
  simp [ht]

/-! ### Views of a per-task loop iteration -/

/-- The fields of a `results` entry that do not depend on the
autoincrement execution counter: agent name, final status, error. -/
def outcomeProj (o : AgentOutcome) : String × String × Option String :=
  (o.agent, o.status, o.error)

/-- What the per-task loop appends to `results` for the given task id,
as a function of the starting state and the oracle: nothing for a
missing task, an agent-less task, or (in pipeline mode) an already
completed task, and otherwise an entry determined by the oracle's
verdict on the task's agent. -/
def expectedProj (oracle : Nat → ExecOutcome) (emitSkip : Bool) (db : DB)
    (tid : Nat) : Option (String × String × Option String) :=
  match db.getTask tid with
  | none => none
  | some t =>
    match t.agent_id with
    | none => none
    | some aid =>
      match db.agentName aid with
      | none => none
      | some nm =>
        if t.status = "completed" then
          if emitSkip then some (nm, "completed", none) else none
        else
          match oracle aid with
          | .ok => some (nm, "completed", none)
          | .fail e => some (nm, "failed", some e)
          | .exn m => some (nm, "failed", some m)

/-- A task row is settled for the oracle when re-running it cannot
change the row: its agent is absent, or the row is already `completed`,
or it is `failed` with exactly the error message the (deterministic)
oracle would produce again. -/
def settledTask (oracle : Nat → ExecOutcome) (has : Nat → Bool) (t : Task) :
    Prop :=
  ∀ aid, t.agent_id = some aid → has aid = true →
    match oracle aid with
    | .ok => t.status = "completed"
    | .fail e => t.status = "completed" ∨
        (t.status = "failed" ∧ t.error_message = some e)
    | .exn m => t.status = "completed" ∨
        (t.status = "failed" ∧ t.error_message = some m)

/-! ### Frame lemmas for one loop iteration -/

theorem runTask_projects (oracle : Nat → ExecOutcome) (es : Bool) (db : DB)
    (pid : Nat) (pr : String) (tid : Nat) :
    (runTask oracle es db pid pr tid).1.projects = db.projects := by
  cases hT : db.getTask tid with
  | none => simp [runTask, hT]
  | some t =>
    cases hA : t.agent_id.bind db.getAgent with
    | none => simp [runTask, hT, hA]
    | some a =>
      by_cases hc : (t.status == "completed") = true
      · simp [runTask, hT, hA, hc]
      · cases hE : execute_agent oracle
            (db.updateTask tid Task.toProcessing)
            a.id pr (some pid) (some tid) with
        | mk db2 r =>
          have hP := execute_agent_projects oracle
            (db.updateTask tid Task.toProcessing)
            a.id pr (some pid) (some tid)
          rw [hE] at hP
          simp only [updateTask_projects] at hP
          cases r with
          | error msg =>
            simp only [runTask, hT, hA, hc, hE, if_neg, if_false,
              updateTask_projects]
            exact hP
          | ok res =>
            by_cases hs : res.success = true <;>
              simp only [runTask, hT, hA, hc, hE, hs, if_true, if_false,
                updateTask_projects] <;>
              exact hP

theorem runTask_agentName (oracle : Nat → ExecOutcome) (es : Bool) (db : DB)
    (pid : Nat) (pr : String) (tid : Nat) (aid2 : Nat) :
    (runTask oracle es db pid pr tid).1.agentName aid2 =
      db.agentName aid2 := by
  cases hT : db.getTask tid with
  | none => simp [runTask, hT]
  | some t =>
    cases hA : t.agent_id.bind db.getAgent with
    | none => simp [runTask, hT, hA]
    | some a =>
      by_cases hc : (t.status == "completed") = true
      · simp [runTask, hT, hA, hc]
      · cases hE : execute_agent oracle
            (db.updateTask tid Task.toProcessing)
            a.id pr (some pid) (some tid) with
        | mk db2 r =>
          have hN := execute_agent_agentName oracle
            (db.updateTask tid Task.toProcessing)
            a.id pr (some pid) (some tid) aid2
          rw [hE] at hN
          have hN2 : db2.agentName aid2 = db.agentName aid2 := hN
          cases r with
          | error msg =>
            simp only [runTask, hT, hA, hc, hE, if_neg, if_false]
            exact hN2
          | ok res =>
            by_cases hs : res.success = true <;>
              simp only [runTask, hT, hA, hc, hE, hs, if_true, if_false] <;>
              exact hN2

theorem hasAgent_of_agentName {db1 db2 : DB}
    (h : ∀ aid, db1.agentName aid = db2.agentName aid) (aid : Nat) :
    db1.hasAgent aid = db2.hasAgent aid := by
  have := h aid
  unfold DB.agentName at this
  unfold DB.hasAgent
  cases h1 : db1.getAgent aid <;> cases h2 : db2.getAgent aid <;> simp_all

theorem runTask_hasAgent (oracle : Nat → ExecOutcome) (es : Bool) (db : DB)
    (pid : Nat) (pr : String) (tid : Nat) (aid2 : Nat) :
    (runTask oracle es db pid pr tid).1.hasAgent aid2 = db.hasAgent aid2 :=
  hasAgent_of_agentName
    (fun x => runTask_agentName oracle es db pid pr tid x) aid2

theorem getTask_congr {db1 db2 : DB} (h : db1.tasks = db2.tasks) (tid : Nat) :
    db1.getTask tid = db2.getTask tid := by
  unfold DB.getTask
  rw [h]

theorem updateTask_tasks (db : DB) (tid : Nat) (f : Task → Task) :
    (db.updateTask tid f).tasks =
      db.tasks.map (fun t => if t.id == tid then f t else t) := rfl

/-- The primary key and the foreign keys of a task row, i.e. everything
the per-task loop never writes. -/
def taskKey (t : Task) : Nat × Nat × Option Nat × Nat :=
  (t.id, t.project_id, t.agent_id, t.stage)

theorem taskKeys_updateTask (db : DB) (tid : Nat) (f : Task → Task)
    (hf : ∀ u, taskKey (f u) = taskKey u) :
    (db.updateTask tid f).tasks.map taskKey = db.tasks.map taskKey := by
  rw [updateTask_tasks, List.map_map]
  apply map_congr_mem
  intro u _
  by_cases h : u.id == tid <;> simp [Function.comp, h, hf]

theorem execute_agent_error_char (oracle : Nat → ExecOutcome) (db : DB)
    (aid : Nat) (pr : String) (pI tI : Option Nat) {db2 : DB} {msg : String}
    (h : execute_agent oracle db aid pr pI tI = (db2, .error msg)) :
    oracle aid = .exn msg ∧ db2 = db := by
  cases ho : oracle aid <;> simp [execute_agent, ho] at h
  all_goals simp_all

theorem execute_agent_ok_char (oracle : Nat → ExecOutcome) (db : DB)
    (aid : Nat) (pr : String) (pI tI : Option Nat) {db2 : DB}
    {res : ExecResult}
    (h : execute_agent oracle db aid pr pI tI = (db2, .ok res)) :
    res.success = (oracle aid matches .ok) ∧
    res.error = (match oracle aid with | .fail e => some e | _ => none) := by
  cases ho : oracle aid <;> simp [execute_agent, ho] at h
  · obtain ⟨h1, h2⟩ := h
    rw [← h2]
    exact ⟨rfl, rfl⟩
  · obtain ⟨h1, h2⟩ := h
    rw [← h2]
    exact ⟨rfl, rfl⟩

theorem getTask_runTask_of_ne (oracle : Nat → ExecOutcome) (es : Bool)
    (db : DB) (pid : Nat) (pr : String) {tid tid2 : Nat} (hne : tid2 ≠ tid) :
    (runTask oracle es db pid pr tid).1.getTask tid2 = db.getTask tid2 := by
  cases hT : db.getTask tid with
  | none => simp [runTask, hT]
  | some t =>
    cases hA : t.agent_id.bind db.getAgent with
    | none => simp [runTask, hT, hA]
    | some a =>
      by_cases hc : (t.status == "completed") = true
      · simp [runTask, hT, hA, hc]
      · cases hE : execute_agent oracle
            (db.updateTask tid Task.toProcessing)
            a.id pr (some pid) (some tid) with
        | mk db2 r =>
          have hTk := execute_agent_tasks oracle
            (db.updateTask tid Task.toProcessing)
            a.id pr (some pid) (some tid)
          rw [hE] at hTk
          have hbase : db2.getTask tid2 = db.getTask tid2 := by
            rw [getTask_congr hTk,
              getTask_updateTask_ne db hne Task.toProcessing (fun u => rfl)]
          cases r with
          | error msg =>
            simp only [runTask, hT, hA, hE]
            rw [if_neg hc]
            rw [getTask_updateTask_ne db2 hne (Task.toFailed msg) (fun u => rfl),
              hbase]
          | ok res =>
            by_cases hs : res.success = true
            · simp only [runTask, hT, hA, hE]
              rw [if_neg hc, if_pos hs]
              rw [getTask_updateTask_ne db2 hne Task.toCompleted (fun u => rfl),
                hbase]
            · simp only [runTask, hT, hA, hE]
              rw [if_neg hc, if_neg hs]
              rw [getTask_updateTask_ne db2 hne
                (Task.toFailed (res.error.getD "Unknown error")) (fun u => rfl),
                hbase]

theorem runTask_taskKeys (oracle : Nat → ExecOutcome) (es : Bool) (db : DB)
    (pid : Nat) (pr : String) (tid : Nat) :
    (runTask oracle es db pid pr tid).1.tasks.map taskKey =
      db.tasks.map taskKey := by
  cases hT : db.getTask tid with
  | none => simp [runTask, hT]
  | some t =>
    cases hA : t.agent_id.bind db.getAgent with
    | none => simp [runTask, hT, hA]
    | some a =>
      by_cases hc : (t.status == "completed") = true
      · simp [runTask, hT, hA, hc]
      · cases hE : execute_agent oracle
            (db.updateTask tid Task.toProcessing)
            a.id pr (some pid) (some tid) with
        | mk db2 r =>
          have hTk := execute_agent_tasks oracle
            (db.updateTask tid Task.toProcessing)
            a.id pr (some pid) (some tid)
          rw [hE] at hTk
          have hbase : db2.tasks.map taskKey = db.tasks.map taskKey := by
            rw [hTk]
            exact taskKeys_updateTask db tid Task.toProcessing (fun u => rfl)
          cases r with
          | error msg =>
            simp only [runTask, hT, hA, hE]
            rw [if_neg hc]
            rw [taskKeys_updateTask db2 tid (Task.toFailed msg) (fun u => rfl)]
            exact hbase
          | ok res =>
            by_cases hs : res.success = true
            · simp only [runTask, hT, hA, hE]
              rw [if_neg hc, if_pos hs]
              rw [taskKeys_updateTask db2 tid Task.toCompleted (fun u => rfl)]
              exact hbase
            · simp only [runTask, hT, hA, hE]
              rw [if_neg hc, if_neg hs]
              rw [taskKeys_updateTask db2 tid
                (Task.toFailed (res.error.getD "Unknown error")) (fun u => rfl)]
              exact hbase

theorem settledTask_congr {oracle : Nat → ExecOutcome} {has1 has2 : Nat → Bool}
    (h : ∀ x, has1 x = has2 x) {t : Task} (hs : settledTask oracle has1 t) :
    settledTask oracle has2 t := by
  intro aid ha hh
  exact hs aid ha (by rw [h aid]; exact hh)

theorem matches_ok_iff (o : ExecOutcome) : (o matches .ok) = true ↔ o = .ok := by
  cases o <;> simp

theorem runTask_settles (oracle : Nat → ExecOutcome) (es : Bool) (db : DB)
    (pid : Nat) (pr : String) (tid : Nat) {t2 : Task}
    (h2 : (runTask oracle es db pid pr tid).1.getTask tid = some t2) :
    settledTask oracle db.hasAgent t2 := by
  cases hT : db.getTask tid with
  | none =>
    rw [show (runTask oracle es db pid pr tid).1 = db by simp [runTask, hT],
      hT] at h2
    cases h2
  | some t =>
    cases hA : t.agent_id.bind db.getAgent with
    | none =>
      rw [show (runTask oracle es db pid pr tid).1 = db by
        simp [runTask, hT, hA], hT] at h2
      injection h2 with h2
      subst h2
      intro aid ha hh
      rw [ha] at hA
      simp only [Option.some_bind] at hA
      unfold DB.hasAgent at hh
      rw [hA] at hh
      cases hh
    | some a =>
      by_cases hc : (t.status == "completed") = true
      · rw [show (runTask oracle es db pid pr tid).1 = db by
          simp [runTask, hT, hA, hc], hT] at h2
        injection h2 with h2
        subst h2
        have hst : t.status = "completed" := by simpa using hc
        intro aid ha hh
        cases ho : oracle aid
        · exact hst
        · exact Or.inl hst
        · exact Or.inl hst
      · obtain ⟨x, hx, hax⟩ := Option.bind_eq_some.mp hA
        have haidx : a.id = x := getAgent_id hax
        cases hE : execute_agent oracle (db.updateTask tid Task.toProcessing)
            a.id pr (some pid) (some tid) with
        | mk db2 r =>
          have hTk := execute_agent_tasks oracle
            (db.updateTask tid Task.toProcessing) a.id pr (some pid) (some tid)
          rw [hE] at hTk
          have hg2 : db2.getTask tid = some (Task.toProcessing t) := by
            rw [getTask_congr hTk tid]
            exact getTask_updateTask_self db hT Task.toProcessing (fun u => rfl)
          cases r with
          | error msg =>
            have hchar := execute_agent_error_char oracle
              (db.updateTask tid Task.toProcessing) a.id pr
              (some pid) (some tid) hE
            rw [show (runTask oracle es db pid pr tid).1 =
                db2.updateTask tid (Task.toFailed msg) by
              simp only [runTask, hT, hA, hE]
              rw [if_neg hc]] at h2
            rw [getTask_updateTask_self db2 hg2 (Task.toFailed msg)
              (fun u => rfl)] at h2
            injection h2 with h2
            subst h2
            intro aid ha hh
            have haid : aid = x := by
              have : t.agent_id = some aid := ha
              rw [hx] at this
              injection this with this
              exact this.symm
            rw [haid, ← haidx, hchar.1]
            exact Or.inr ⟨rfl, rfl⟩
          | ok res =>
            have hchar := execute_agent_ok_char oracle
              (db.updateTask tid Task.toProcessing) a.id pr
              (some pid) (some tid) hE
            by_cases hs : res.success = true
            · have hok : oracle a.id = .ok := by
                rw [hs] at hchar
                exact (matches_ok_iff (oracle a.id)).mp hchar.1.symm
              rw [show (runTask oracle es db pid pr tid).1 =
                  db2.updateTask tid Task.toCompleted by
                simp only [runTask, hT, hA, hE]
                rw [if_neg hc, if_pos hs]] at h2
              rw [getTask_updateTask_self db2 hg2 Task.toCompleted
                (fun u => rfl)] at h2
              injection h2 with h2
              subst h2
              intro aid ha hh
              have haid : aid = x := by
                have : t.agent_id = some aid := ha
                rw [hx] at this
                injection this with this
                exact this.symm
              rw [haid, ← haidx, hok]
              rfl
            · cases ho : oracle a.id with
              | ok =>
                rw [ho] at hchar
                simp at hchar
                rw [hchar.1] at hs
                exact absurd rfl hs
              | exn m =>
                rw [execute_agent, ho] at hE
                cases hE
              | fail e =>
                have herr : res.error = some e := by
                  rw [ho] at hchar
                  exact hchar.2
                rw [show (runTask oracle es db pid pr tid).1 =
                    db2.updateTask tid
                      (Task.toFailed (res.error.getD "Unknown error")) by
                  simp only [runTask, hT, hA, hE]
                  rw [if_neg hc, if_neg hs]] at h2
                rw [getTask_updateTask_self db2 hg2
                  (Task.toFailed (res.error.getD "Unknown error"))
                  (fun u => rfl)] at h2
                injection h2 with h2
                subst h2
                intro aid ha hh
                have haid : aid = x := by
                  have : t.agent_id = some aid := ha
                  rw [hx] at this
                  injection this with this
                  exact this.symm
                rw [haid, ← haidx, ho]
                refine Or.inr ⟨rfl, ?_⟩
                show some ((res.error.getD "Unknown error")) = some e
                rw [herr]
                rfl

theorem task_eq_of_fields {t : Task} {st : String} {em : Option String}
    (h1 : t.status = st) (h2 : t.error_message = em) :
    ({ t with status := st, error_message := em } : Task) = t := by
  cases t
  simp_all

theorem tasks_update_twice_cancel (db : DB) (tid : Nat) {t : Task}
    (hn : (db.tasks.map (fun u => u.id)).Nodup)
    (hT : db.getTask tid = some t) (f g : Task → Task)
    (hfg : g (f t) = t) (hfid : ∀ u, (f u).id = u.id) :
    (db.updateTask tid f).tasks.map
      (fun u => if u.id == tid then g u else u) = db.tasks := by
  rw [updateTask_tasks, List.map_map]
  apply map_eq_self_of_mem
  intro u hu
  by_cases h : (u.id == tid) = true
  · have hut : u = t := by
      have ht_mem := getTask_mem hT
      have htid : t.id = tid := getTask_id hT
      refine List.inj_on_of_nodup_map hn hu ht_mem ?_
      simp only [beq_iff_eq] at h
      rw [h, htid]
    subst hut
    simp [Function.comp, h, hfid, hfg]
  · simp [Function.comp, h]

theorem runTask_of_settled (oracle : Nat → ExecOutcome) (es : Bool) (db : DB)
    (pid : Nat) (pr : String) (tid : Nat)
    (hn : (db.tasks.map (fun t => t.id)).Nodup)
    (hs : ∀ t, db.getTask tid = some t → settledTask oracle db.hasAgent t) :
    (runTask oracle es db pid pr tid).1.tasks = db.tasks ∧
    ((runTask oracle es db pid pr tid).2.2 = true →
      ∀ t, db.getTask tid = some t → t.status ≠ "completed") := by
  cases hT : db.getTask tid with
  | none =>
    constructor
    · simp [runTask, hT]
    · intro _ t ht
      cases ht
  | some t =>
    cases hA : t.agent_id.bind db.getAgent with
    | none =>
      constructor
      · simp [runTask, hT, hA]
      · intro hcall
        simp [runTask, hT, hA] at hcall
    | some a =>
      by_cases hc : (t.status == "completed") = true
      · constructor
        · simp [runTask, hT, hA, hc]
        · intro hcall
          simp [runTask, hT, hA, hc] at hcall
      · obtain ⟨x, hx, hax⟩ := Option.bind_eq_some.mp hA
        have haidx : a.id = x := getAgent_id hax
        have hhas : db.hasAgent x = true := by
          unfold DB.hasAgent
          rw [hax]
          rfl
        have hsett := hs t hT x hx hhas
        have hncomp : t.status ≠ "completed" := by
          intro hcontra
          exact hc (by simp [hcontra])
        cases hE : execute_agent oracle (db.updateTask tid Task.toProcessing)
            a.id pr (some pid) (some tid) with
        | mk db2 r =>
          have hTk := execute_agent_tasks oracle
            (db.updateTask tid Task.toProcessing) a.id pr (some pid) (some tid)
          rw [hE] at hTk
          have hsecond : (runTask oracle es db pid pr tid).2.2 = true →
              ∀ t2, some t = some t2 → t2.status ≠ "completed" := by
            intro _ t2 ht2
            injection ht2 with ht2
            rw [← ht2]
            exact hncomp
          cases r with
          | error msg =>
            have hchar := execute_agent_error_char oracle
              (db.updateTask tid Task.toProcessing) a.id pr
              (some pid) (some tid) hE
            have ho : oracle x = .exn msg := by rw [← haidx]; exact hchar.1
            rw [ho] at hsett
            have hfail : t.status = "failed" ∧ t.error_message = some msg :=
              hsett.resolve_left hncomp
            refine ⟨?_, hsecond⟩
            rw [show (runTask oracle es db pid pr tid).1 =
                db2.updateTask tid (Task.toFailed msg) by
              simp only [runTask, hT, hA, hE]
              rw [if_neg hc]]
            rw [updateTask_tasks, hTk]
            exact tasks_update_twice_cancel db tid hn hT Task.toProcessing
              (Task.toFailed msg) (task_eq_of_fields hfail.1 hfail.2)
              (fun u => rfl)
          | ok res =>
            have hchar := execute_agent_ok_char oracle
              (db.updateTask tid Task.toProcessing) a.id pr
              (some pid) (some tid) hE
            by_cases hsucc : res.success = true
            · have hok : oracle x = .ok := by
                rw [← haidx]
                rw [hsucc] at hchar
                exact (matches_ok_iff (oracle a.id)).mp hchar.1.symm
              rw [hok] at hsett
              exact absurd hsett hncomp
            · cases ho : oracle a.id with
              | ok =>
                rw [ho] at hchar
                simp at hchar
                rw [hchar.1] at hsucc
                exact absurd rfl hsucc
              | exn m =>
                rw [execute_agent, ho] at hE
                cases hE
              | fail e =>
                have herr : res.error = some e := by
                  rw [ho] at hchar
                  exact hchar.2
                have hoe : oracle x = .fail e := by rw [← haidx]; exact ho
                rw [hoe] at hsett
                have hfail : t.status = "failed" ∧ t.error_message = some e :=
                  hsett.resolve_left hncomp
                refine ⟨?_, hsecond⟩
                rw [show (runTask oracle es db pid pr tid).1 =
                    db2.updateTask tid
                      (Task.toFailed (res.error.getD "Unknown error")) by
                  simp only [runTask, hT, hA, hE]
                  rw [if_neg hc, if_neg hsucc]]
                rw [updateTask_tasks, hTk]
                have hgd : res.error.getD "Unknown error" = e := by
                  rw [herr]
                  rfl
                rw [hgd]
                exact tasks_update_twice_cancel db tid hn hT Task.toProcessing
                  (Task.toFailed e) (task_eq_of_fields hfail.1 hfail.2)
                  (fun u => rfl)

theorem runTask_outs (oracle : Nat → ExecOutcome) (es : Bool) (db : DB)
    (pid : Nat) (pr : String) (tid : Nat) :
    (runTask oracle es db pid pr tid).2.1.map outcomeProj =
      (expectedProj oracle es db tid).toList := by
  cases hT : db.getTask tid with
  | none => simp [runTask, expectedProj, hT]
  | some t =>
    cases hxa : t.agent_id with
    | none =>
      have hA : t.agent_id.bind db.getAgent = none := by rw [hxa]; rfl
      simp [runTask, expectedProj, hT, hA, hxa]
    | some x =>
      cases hax : db.getAgent x with
      | none =>
        have hA : t.agent_id.bind db.getAgent = none := by
          rw [hxa]
          simpa using hax
        simp [runTask, expectedProj, hT, hA, hxa, DB.agentName, hax]
      | some a =>
        have hA : t.agent_id.bind db.getAgent = some a := by
          rw [hxa]
          simpa using hax
        have hnm : db.agentName x = some a.name := by
          unfold DB.agentName
          rw [hax]
          rfl
        have haidx : a.id = x := getAgent_id hax
        by_cases hc : (t.status == "completed") = true
        · have hcs : t.status = "completed" := by simpa using hc
          cases es <;>
            simp [runTask, expectedProj, hT, hA, hax, hxa, hnm, hc, hcs,
              outcomeProj]
        · have hcs : ¬ t.status = "completed" := by
            intro hcontra
            exact hc (by simp [hcontra])
          cases hE : execute_agent oracle (db.updateTask tid Task.toProcessing)
              a.id pr (some pid) (some tid) with
          | mk db2 r =>
            cases r with
            | error msg =>
              have hchar := execute_agent_error_char oracle
                (db.updateTask tid Task.toProcessing) a.id pr
                (some pid) (some tid) hE
              have ho : oracle x = .exn msg := by rw [← haidx]; exact hchar.1
              simp only [runTask, hT, hA, hE]
              rw [if_neg hc]
              simp [expectedProj, hT, hxa, hnm, hcs, ho, outcomeProj]
            | ok res =>
              have hchar := execute_agent_ok_char oracle
                (db.updateTask tid Task.toProcessing) a.id pr
                (some pid) (some tid) hE
              by_cases hsucc : res.success = true
              · have ho : oracle x = .ok := by
                  rw [← haidx]
                  rw [hsucc] at hchar
                  exact (matches_ok_iff (oracle a.id)).mp hchar.1.symm
                simp only [runTask, hT, hA, hE]
                rw [if_neg hc, if_pos hsucc]
                simp [expectedProj, hT, hxa, hnm, hcs, ho, outcomeProj]
              · cases ho : oracle a.id with
                | ok =>
                  rw [ho] at hchar
                  simp at hchar
                  rw [hchar.1] at hsucc
                  exact absurd rfl hsucc
                | exn m =>
                  rw [execute_agent, ho] at hE
                  cases hE
                | fail e =>
                  have herr : res.error = some e := by
                    rw [ho] at hchar
                    exact hchar.2
                  have hoe : oracle x = .fail e := by rw [← haidx]; exact ho
                  have hgd : res.error.getD "Unknown error" = e := by
                    rw [herr]
                    rfl
                  simp only [runTask, hT, hA, hE]
                  rw [if_neg hc, if_neg hsucc]
                  simp [expectedProj, hT, hxa, hnm, hcs, hoe, hgd, outcomeProj]

/-! ### Lifting the iteration lemmas to the whole loop -/

theorem runTasks_projects (oracle : Nat → ExecOutcome) (es : Bool)
    (pid : Nat) (pr : String) : ∀ (tids : List Nat) (db : DB),
    (runTasks oracle es db pid pr tids).1.projects = db.projects := by
  intro tids
  induction tids with
  | nil => intro db; rfl
  | cons tid rest ih =>
    intro db
    show (runTasks oracle es (runTask oracle es db pid pr tid).1
      pid pr rest).1.projects = _
    rw [ih, runTask_projects]

theorem runTasks_agentName (oracle : Nat → ExecOutcome) (es : Bool)
    (pid : Nat) (pr : String) : ∀ (tids : List Nat) (db : DB) (aid : Nat),
    (runTasks oracle es db pid pr tids).1.agentName aid =
      db.agentName aid := by
  intro tids
  induction tids with
  | nil => intro db aid; rfl
  | cons tid rest ih =>
    intro db aid
    show (runTasks oracle es (runTask oracle es db pid pr tid).1
      pid pr rest).1.agentName aid = _
    rw [ih, runTask_agentName]

theorem runTasks_hasAgent (oracle : Nat → ExecOutcome) (es : Bool)
    (pid : Nat) (pr : String) (tids : List Nat) (db : DB) (aid : Nat) :
    (runTasks oracle es db pid pr tids).1.hasAgent aid = db.hasAgent aid :=
  hasAgent_of_agentName
    (fun x => runTasks_agentName oracle es pid pr tids db x) aid

theorem runTasks_taskKeys (oracle : Nat → ExecOutcome) (es : Bool)
    (pid : Nat) (pr : String) : ∀ (tids : List Nat) (db : DB),
    (runTasks oracle es db pid pr tids).1.tasks.map taskKey =
      db.tasks.map taskKey := by
  intro tids
  induction tids with
  | nil => intro db; rfl
  | cons tid rest ih =>
    intro db
    show (runTasks oracle es (runTask oracle es db pid pr tid).1
      pid pr rest).1.tasks.map taskKey = _
    rw [ih, runTask_taskKeys]

theorem getTask_runTasks_of_not_mem (oracle : Nat → ExecOutcome) (es : Bool)
    (pid : Nat) (pr : String) : ∀ (tids : List Nat) (db : DB) (tid2 : Nat),
    tid2 ∉ tids →
    (runTasks oracle es db pid pr tids).1.getTask tid2 = db.getTask tid2 := by
  intro tids
  induction tids with
  | nil => intro db tid2 h; rfl
  | cons tid rest ih =>
    intro db tid2 h
    have h1 : tid2 ≠ tid := fun hcontra => h (by rw [hcontra]; simp)
    have h2 : tid2 ∉ rest := fun hcontra => h (List.mem_cons_of_mem _ hcontra)
    show (runTasks oracle es (runTask oracle es db pid pr tid).1
      pid pr rest).1.getTask tid2 = _
    rw [ih _ tid2 h2, getTask_runTask_of_ne oracle es db pid pr h1]

theorem runTasks_settles (oracle : Nat → ExecOutcome) (es : Bool)
    (pid : Nat) (pr : String) :
    ∀ (tids : List Nat) (db : DB) (tid : Nat), tid ∈ tids → ∀ t2,
      (runTasks oracle es db pid pr tids).1.getTask tid = some t2 →
      settledTask oracle db.hasAgent t2 := by
  intro tids
  induction tids with
  | nil => intro db tid h; cases h
  | cons tid0 rest ih =>
    intro db tid hmem t2 h2
    by_cases hr : tid ∈ rest
    · have hs := ih (runTask oracle es db pid pr tid0).1 tid hr t2 h2
      exact settledTask_congr
        (fun x => runTask_hasAgent oracle es db pid pr tid0 x) hs
    · have htid : tid = tid0 := by
        cases List.mem_cons.mp hmem with
        | inl h => exact h
        | inr h => exact absurd h hr
      subst htid
      have h2a : (runTasks oracle es (runTask oracle es db pid pr tid).1
          pid pr rest).1.getTask tid = some t2 := h2
      rw [getTask_runTasks_of_not_mem oracle es pid pr rest _ tid hr] at h2a
      exact runTask_settles oracle es db pid pr tid h2a

theorem runTasks_of_settled (oracle : Nat → ExecOutcome) (es : Bool)
    (pid : Nat) (pr : String) :
    ∀ (tids : List Nat) (db : DB),
      (db.tasks.map (fun t => t.id)).Nodup →
      (∀ tid ∈ tids, ∀ t, db.getTask tid = some t →
        settledTask oracle db.hasAgent t) →
      (runTasks oracle es db pid pr tids).1.tasks = db.tasks ∧
      (∀ tid ∈ (runTasks oracle es db pid pr tids).2.2, ∀ t,
        db.getTask tid = some t → t.status ≠ "completed") := by
  intro tids
  induction tids with
  | nil =>
    intro db hn hs
    exact ⟨rfl, by intro tid h; cases h⟩
  | cons tid0 rest ih =>
    intro db hn hs
    obtain ⟨htasks, hlog⟩ := runTask_of_settled oracle es db pid pr tid0 hn
      (fun t ht => hs tid0 (by simp) t ht)
    have hgt : ∀ x, (runTask oracle es db pid pr tid0).1.getTask x =
        db.getTask x := fun x => getTask_congr htasks x
    have hn1 : ((runTask oracle es db pid pr tid0).1.tasks.map
        (fun t => t.id)).Nodup := by
      rw [htasks]; exact hn
    have hs1 : ∀ tid ∈ rest, ∀ t,
        (runTask oracle es db pid pr tid0).1.getTask tid = some t →
        settledTask oracle (runTask oracle es db pid pr tid0).1.hasAgent t := by
      intro tid hm t ht
      rw [hgt tid] at ht
      exact settledTask_congr
        (fun x => (runTask_hasAgent oracle es db pid pr tid0 x).symm)
        (hs tid (List.mem_cons_of_mem _ hm) t ht)
    have hrest := ih (runTask oracle es db pid pr tid0).1 hn1 hs1
    constructor
    · show (runTasks oracle es (runTask oracle es db pid pr tid0).1
        pid pr rest).1.tasks = db.tasks
      rw [hrest.1, htasks]
    · intro tid hmem t ht
      have hmem2 : tid ∈ (if (runTask oracle es db pid pr tid0).2.2 then
          [tid0] else []) ++
          (runTasks oracle es (runTask oracle es db pid pr tid0).1
            pid pr rest).2.2 := hmem
      cases List.mem_append.mp hmem2 with
      | inl hfirst =>
        by_cases hcall : (runTask oracle es db pid pr tid0).2.2 = true
        · rw [if_pos hcall] at hfirst
          have : tid = tid0 := by simpa using hfirst
          subst this
          exact hlog hcall t ht
        · rw [if_neg hcall] at hfirst
          cases hfirst
      | inr hrestmem =>
        have := hrest.2 tid hrestmem t (by rw [hgt tid]; exact ht)
        exact this

theorem expectedProj_congr (oracle : Nat → ExecOutcome) (es : Bool)
    {db1 db2 : DB} (tid : Nat)
    (ht : db1.getTask tid = db2.getTask tid)
    (hn : ∀ x, db1.agentName x = db2.agentName x) :
    expectedProj oracle es db1 tid = expectedProj oracle es db2 tid := by
  unfold expectedProj
  rw [ht, funext hn]

theorem runTasks_outs (oracle : Nat → ExecOutcome) (es : Bool)
    (pid : Nat) (pr : String) :
    ∀ (tids : List Nat) (db : DB), tids.Nodup →
      (runTasks oracle es db pid pr tids).2.1.map outcomeProj =
        tids.filterMap (expectedProj oracle es db) := by
  intro tids
  induction tids with
  | nil => intro db h; rfl
  | cons tid0 rest ih =>
    intro db hnd
    have hnotin : tid0 ∉ rest := (List.nodup_cons.mp hnd).1
    have hndr : rest.Nodup := (List.nodup_cons.mp hnd).2
    have hstep := runTask_outs oracle es db pid pr tid0
    have hrest := ih (runTask oracle es db pid pr tid0).1 hndr
    have htrans : (runTasks oracle es (runTask oracle es db pid pr tid0).1
        pid pr rest).2.1.map outcomeProj =
        rest.filterMap (expectedProj oracle es db) := by
      rw [hrest]
      apply List.filterMap_congr
      intro x hx
      refine expectedProj_congr oracle es x ?_ ?_
      · exact getTask_runTask_of_ne oracle es db pid pr
          (fun hcontra => hnotin (hcontra ▸ hx))
      · intro y
        exact runTask_agentName oracle es db pid pr tid0 y
    show ((runTask oracle es db pid pr tid0).2.1 ++
        (runTasks oracle es (runTask oracle es db pid pr tid0).1
          pid pr rest).2.1).map outcomeProj = _
    rw [List.map_append, hstep, htrans, List.filterMap_cons]
    cases hexp : expectedProj oracle es db tid0 with
    | none => rfl
    | some v => rfl

/-! ### The stable view of the agent table -/

/-- The agent columns the orchestrator reads but never writes. -/
def agentKey (a : Agent) : Nat × String × Nat × Bool :=
  (a.id, a.name, a.stage, a.is_active)

theorem agentKeys_updateAgent (db : DB) (aid : Nat) (f : Agent → Agent)
    (hf : ∀ a, agentKey (f a) = agentKey a) :
    (db.updateAgent aid f).agents.map agentKey = db.agents.map agentKey := by
  show (db.agents.map _).map agentKey = _
  rw [List.map_map]
  apply map_congr_mem
  intro a _
  by_cases h : (a.id == aid) = true <;> simp [Function.comp, h, hf]

theorem execute_agent_agentKeys (oracle : Nat → ExecOutcome) (db : DB)
    (aid : Nat) (pr : String) (projectId taskId : Option Nat) :
    (execute_agent oracle db aid pr projectId taskId).1.agents.map agentKey =
      db.agents.map agentKey := by
  cases h : oracle aid
  case exn msg => simp [execute_agent, h]
  all_goals
    simp only [execute_agent, h]
    rw [agentKeys_updateAgent]
    intro a
    rfl

theorem runTask_agentKeys (oracle : Nat → ExecOutcome) (es : Bool) (db : DB)
    (pid : Nat) (pr : String) (tid : Nat) :
    (runTask oracle es db pid pr tid).1.agents.map agentKey =
      db.agents.map agentKey := by
  cases hT : db.getTask tid with
  | none => simp [runTask, hT]
  | some t =>
    cases hA : t.agent_id.bind db.getAgent with
    | none => simp [runTask, hT, hA]
    | some a =>
      by_cases hc : (t.status == "completed") = true
      · simp [runTask, hT, hA, hc]
      · cases hE : execute_agent oracle
            (db.updateTask tid Task.toProcessing)
            a.id pr (some pid) (some tid) with
        | mk db2 r =>
          have hK := execute_agent_agentKeys oracle
            (db.updateTask tid Task.toProcessing) a.id pr (some pid) (some tid)
          rw [hE] at hK
          have hbase : db2.agents.map agentKey = db.agents.map agentKey := hK
          cases r with
          | error msg =>
            simp only [runTask, hT, hA, hE]
            rw [if_neg hc]
            exact hbase
          | ok res =>
            by_cases hs : res.success = true
            · simp only [runTask, hT, hA, hE]
              rw [if_neg hc, if_pos hs]
              exact hbase
            · simp only [runTask, hT, hA, hE]
              rw [if_neg hc, if_neg hs]
              exact hbase

theorem runTasks_agentKeys (oracle : Nat → ExecOutcome) (es : Bool)
    (pid : Nat) (pr : String) : ∀ (tids : List Nat) (db : DB),
    (runTasks oracle es db pid pr tids).1.agents.map agentKey =
      db.agents.map agentKey := by
  intro tids
  induction tids with
  | nil => intro db; rfl
  | cons tid rest ih =>
    intro db
    show (runTasks oracle es (runTask oracle es db pid pr tid).1
      pid pr rest).1.agents.map agentKey = _
    rw [ih, runTask_agentKeys]

/-! ### Lemmas about `ensureTasks` and `mkStageTasks` -/

/-- The ids of the tasks of a given project and stage. -/
def stageTaskIds (db : DB) (pid s : Nat) : List Nat :=
  (db.tasks.filter (fun t => t.project_id == pid && t.stage == s)).map
    (fun t => t.id)

theorem mkStageTasks_fields (pid s : Nat) :
    ∀ (nid : Nat) (l : List Agent) (t : Task), t ∈ mkStageTasks pid s nid l →
      t.project_id = pid ∧ t.stage = s ∧ t.status = "pending" := by
  intro nid l
  induction l generalizing nid with
  | nil => intro t h; cases h
  | cons a rest ih =>
    intro t h
    cases List.mem_cons.mp h with
    | inl h1 => subst h1; exact ⟨rfl, rfl, rfl⟩
    | inr h2 => exact ih (nid + 1) t h2

theorem mkStageTasks_id_bounds (pid s : Nat) :
    ∀ (nid : Nat) (l : List Agent) (t : Task), t ∈ mkStageTasks pid s nid l →
      nid ≤ t.id ∧ t.id < nid + l.length := by
  intro nid l
  induction l generalizing nid with
  | nil => intro t h; cases h
  | cons a rest ih =>
    intro t h
    cases List.mem_cons.mp h with
    | inl h1 =>
      subst h1
      refine ⟨Nat.le_refl _, ?_⟩
      show nid < nid + (rest.length + 1)
      omega
    | inr h2 =>
      obtain ⟨h3, h4⟩ := ih (nid + 1) t h2
      refine ⟨Nat.le_of_succ_le h3, ?_⟩
      show t.id < nid + (rest.length + 1)
      omega

theorem mkStageTasks_ids_nodup (pid s : Nat) :
    ∀ (nid : Nat) (l : List Agent),
      ((mkStageTasks pid s nid l).map (fun t => t.id)).Nodup := by
  intro nid l
  induction l generalizing nid with
  | nil => exact List.nodup_nil
  | cons a rest ih =>
    rw [show mkStageTasks pid s nid (a :: rest) =
      { id := nid, project_id := pid, agent_id := some a.id,
        title := a.name ++ " - Stage " ++ toString s, stage := s,
        status := "pending", error_message := none } ::
      mkStageTasks pid s (nid + 1) rest from rfl]
    rw [List.map_cons, List.nodup_cons]
    constructor
    · intro hmem
      obtain ⟨t, ht, hid⟩ := List.mem_map.mp hmem
      have hge := (mkStageTasks_id_bounds pid s (nid + 1) rest t ht).1
      have hid2 : t.id = nid := hid
      omega
    · exact ih (nid + 1)

theorem mkStageTasks_length (pid s : Nat) :
    ∀ (nid : Nat) (l : List Agent),
      (mkStageTasks pid s nid l).length = l.length := by
  intro nid l
  induction l generalizing nid with
  | nil => rfl
  | cons a rest ih => simp [mkStageTasks, ih]

theorem ensureTasks_projects (db : DB) (pid s : Nat) :
    (ensureTasks db pid s).1.projects = db.projects := by
  simp only [ensureTasks]
  split <;> rfl

theorem ensureTasks_agents (db : DB) (pid s : Nat) :
    (ensureTasks db pid s).1.agents = db.agents := by
  simp only [ensureTasks]
  split <;> rfl

theorem getProject_congr {db1 db2 : DB} (h : db1.projects = db2.projects)
    (pid : Nat) : db1.getProject pid = db2.getProject pid := by
  unfold DB.getProject
  rw [h]

theorem getAgent_congr {db1 db2 : DB} (h : db1.agents = db2.agents)
    (aid : Nat) : db1.getAgent aid = db2.getAgent aid := by
  unfold DB.getAgent
  rw [h]

theorem filter_map_eq {α β : Type} (l : List α) (f : α → β) (p : β → Bool) :
    (l.map f).filter p = (l.filter (fun x => p (f x))).map f := by
  rw [List.filter_map]
  rfl

theorem stageTaskIds_of_taskKeys {db1 db2 : DB}
    (h : db1.tasks.map taskKey = db2.tasks.map taskKey) (pid s : Nat) :
    stageTaskIds db1 pid s = stageTaskIds db2 pid s := by
  unfold stageTaskIds
  have e1 : ∀ (l : List Task),
      (l.filter (fun t => t.project_id == pid && t.stage == s)).map
        (fun t => t.id) =
      ((l.map taskKey).filter
        (fun k => k.2.1 == pid && k.2.2.2 == s)).map (fun k => k.1) := by
    intro l
    rw [filter_map_eq, List.map_map]
    rfl
  rw [e1, e1, h]

theorem agents_filter_length_transfer {db1 db2 : DB}
    (h : db1.agents.map agentKey = db2.agents.map agentKey) (s : Nat) :
    (db1.agents.filter (fun a => a.stage == s && a.is_active)).length =
      (db2.agents.filter (fun a => a.stage == s && a.is_active)).length := by
  have e1 : ∀ (l : List Agent),
      (l.filter (fun a => a.stage == s && a.is_active)).length =
      ((l.map agentKey).filter
        (fun k => k.2.2.1 == s && k.2.2.2)).length := by
    intro l
    rw [filter_map_eq, List.length_map]
    rfl
  rw [e1, e1, h]

theorem ensureTasks_ids (db : DB) (pid s : Nat) :
    (ensureTasks db pid s).2 = stageTaskIds (ensureTasks db pid s).1 pid s := by
  simp only [ensureTasks, stageTaskIds]
  by_cases h : (db.tasks.filter
      (fun t => t.project_id == pid && t.stage == s)).isEmpty = true
  · rw [if_pos h]
    have hempty : db.tasks.filter
        (fun t => t.project_id == pid && t.stage == s) = [] :=
      List.isEmpty_iff.mp h
    show _ = ((db.tasks ++ _).filter _).map _
    rw [List.filter_append, hempty, List.nil_append]
    have hall : (mkStageTasks pid s db.nextTaskId
        (db.agents.filter (fun a => a.stage == s && a.is_active))).filter
        (fun t => t.project_id == pid && t.stage == s) =
        mkStageTasks pid s db.nextTaskId
          (db.agents.filter (fun a => a.stage == s && a.is_active)) := by
      refine List.filter_eq_self.mpr ?_
      intro t ht
      obtain ⟨h1, h2, _⟩ := mkStageTasks_fields pid s _ _ t ht
      simp [h1, h2]
    rw [hall]
  · rw [if_neg h]

theorem ensureTasks_of_nonempty (db : DB) (pid s : Nat)
    (h : ¬ (db.tasks.filter
      (fun t => t.project_id == pid && t.stage == s)).isEmpty = true) :
    ensureTasks db pid s = (db, stageTaskIds db pid s) := by
  simp only [ensureTasks, stageTaskIds]
  rw [if_neg h]

theorem ensureTasks_of_empty (db : DB) (pid s : Nat)
    (h : (db.tasks.filter
      (fun t => t.project_id == pid && t.stage == s)).isEmpty = true) :
    (ensureTasks db pid s).1.tasks = db.tasks ++ mkStageTasks pid s
        db.nextTaskId (db.agents.filter (fun a => a.stage == s && a.is_active)) ∧
    (ensureTasks db pid s).2 = (mkStageTasks pid s db.nextTaskId
        (db.agents.filter (fun a => a.stage == s && a.is_active))).map
        (fun t => t.id) := by
  simp only [ensureTasks]
  rw [if_pos h]
  exact ⟨rfl, rfl⟩

theorem ensureTasks_WF (db : DB) (pid s : Nat) (hwf : db.WF) :
    (ensureTasks db pid s).1.WF := by
  obtain ⟨hnd, hbound, hand⟩ := hwf
  simp only [ensureTasks]
  by_cases h : (db.tasks.filter
      (fun t => t.project_id == pid && t.stage == s)).isEmpty = true
  · rw [if_pos h]
    refine ⟨?_, ?_, hand⟩
    · show ((db.tasks ++ _).map _).Nodup
      rw [List.map_append]
      refine List.nodup_append.mpr
        ⟨hnd, mkStageTasks_ids_nodup pid s _ _, ?_⟩
      intro x hx hy
      obtain ⟨t, ht, hxid⟩ := List.mem_map.mp hx
      obtain ⟨u, hu, huid⟩ := List.mem_map.mp hy
      have h1 := hbound t ht
      have h2 := (mkStageTasks_id_bounds pid s _ _ u hu).1
      omega
    · intro t ht
      show t.id < db.nextTaskId + _
      rcases List.mem_append.mp ht with h1 | h1
      · have := hbound t h1
        omega
      · have h2 := (mkStageTasks_id_bounds pid s _ _ t h1).2
        rw [mkStageTasks_length pid s db.nextTaskId
          (db.agents.filter (fun a => a.stage == s && a.is_active))]
        exact h2
  · rw [if_neg h]
    exact ⟨hnd, hbound, hand⟩

theorem ensureTasks_tids_nodup (db : DB) (pid s : Nat) (hwf : db.WF) :
    (ensureTasks db pid s).2.Nodup := by
  simp only [ensureTasks]
  by_cases h : (db.tasks.filter
      (fun t => t.project_id == pid && t.stage == s)).isEmpty = true
  · rw [if_pos h]
    exact mkStageTasks_ids_nodup pid s _ _
  · rw [if_neg h]
    exact hwf.1.sublist ((List.filter_sublist _).map _)

theorem getProject_after_finalize {dbA dbB : DB} (pid s : Nat) {p : Project}
    (hproj : dbB.projects = dbA.projects) (hp : dbA.getProject pid = some p) :
    (dbB.updateProject pid (fun q =>
      { q with stage := s,
               status := (stageStatusMap s).getD q.status })).getProject pid =
      some { p with stage := s,
                    status := (stageStatusMap s).getD p.status } := by
  rw [getProject_updateProject dbB pid pid
    (fun q => { q with stage := s,
                       status := (stageStatusMap s).getD q.status })
    (fun q => rfl)]
  rw [getProject_congr hproj pid, hp]
  have hid : p.id = pid := getProject_id hp
  simp [hid]

/-- Unfolding of `process_project_pipeline` when the project exists. -/
theorem pipeline_eq (oracle : Nat → ExecOutcome) (db : DB) (pid s : Nat)
    {p : Project} (hp : db.getProject pid = some p) :
    process_project_pipeline oracle db pid s =
      ((runTasks oracle false (ensureTasks db pid s).1 pid p.idea_source
          (ensureTasks db pid s).2).1.updateProject pid
        (fun q => { q with stage := s,
                           status := (stageStatusMap s).getD q.status }),
       .ok { project_id := pid, stage := s,
             agents_triggered := (runTasks oracle false (ensureTasks db pid s).1
               pid p.idea_source (ensureTasks db pid s).2).2.1.length,
             results := (runTasks oracle false (ensureTasks db pid s).1
               pid p.idea_source (ensureTasks db pid s).2).2.1 },
       (runTasks oracle false (ensureTasks db pid s).1 pid p.idea_source
         (ensureTasks db pid s).2).2.2) := by
  simp only [process_project_pipeline, hp]

theorem execute_agent_nextTaskId (oracle : Nat → ExecOutcome) (db : DB)
    (aid : Nat) (pr : String) (projectId taskId : Option Nat) :
    (execute_agent oracle db aid pr projectId taskId).1.nextTaskId =
      db.nextTaskId := by
  cases h : oracle aid <;> simp [execute_agent, h, DB.updateAgent]

theorem runTask_nextTaskId (oracle : Nat → ExecOutcome) (es : Bool) (db : DB)
    (pid : Nat) (pr : String) (tid : Nat) :
    (runTask oracle es db pid pr tid).1.nextTaskId = db.nextTaskId := by
  cases hT : db.getTask tid with
  | none => simp [runTask, hT]
  | some t =>
    cases hA : t.agent_id.bind db.getAgent with
    | none => simp [runTask, hT, hA]
    | some a =>
      by_cases hc : (t.status == "completed") = true
      · simp [runTask, hT, hA, hc]
      · cases hE : execute_agent oracle
            (db.updateTask tid Task.toProcessing)
            a.id pr (some pid) (some tid) with
        | mk db2 r =>
          have hK := execute_agent_nextTaskId oracle
            (db.updateTask tid Task.toProcessing) a.id pr (some pid) (some tid)
          rw [hE] at hK
          have hbase : db2.nextTaskId = db.nextTaskId := hK
          cases r with
          | error msg =>
            simp only [runTask, hT, hA, hE]
            rw [if_neg hc]
            exact hbase
          | ok res =>
            by_cases hs : res.success = true
            · simp only [runTask, hT, hA, hE]
              rw [if_neg hc, if_pos hs]
              exact hbase
            · simp only [runTask, hT, hA, hE]
              rw [if_neg hc, if_neg hs]
              exact hbase

theorem runTasks_nextTaskId (oracle : Nat → ExecOutcome) (es : Bool)
    (pid : Nat) (pr : String) : ∀ (tids : List Nat) (db : DB),
    (runTasks oracle es db pid pr tids).1.nextTaskId = db.nextTaskId := by
  intro tids
  induction tids with
  | nil => intro db; rfl
  | cons tid rest ih =>
    intro db
    show (runTasks oracle es (runTask oracle es db pid pr tid).1
      pid pr rest).1.nextTaskId = _
    rw [ih, runTask_nextTaskId]

theorem update_project_progress_tasks (db : DB) (pid : Nat) :
    (update_project_progress db pid).1.tasks = db.tasks := by
  unfold update_project_progress
  cases h : db.getProject pid with
  | none => rfl
  | some p =>
    dsimp only
    split <;> rfl

theorem update_project_progress_agents (db : DB) (pid : Nat) :
    (update_project_progress db pid).1.agents = db.agents := by
  unfold update_project_progress
  cases h : db.getProject pid with
  | none => rfl
  | some p =>
    dsimp only
    split <;> rfl

/-! ### Claim theorems -/

/-- C6: the progress recomputation returns `0` when the project has no
tasks; otherwise it stores `100 * completed / total`, rounded to two
decimal places, as the project's `completion_percentage` (returning the
unrounded percentage, as the source does); and calling it again with no
intervening state change returns the same percentage and the same
stored state. -/
theorem C6_progress_recompute (db : DB) (pid : Nat) :
    ((db.tasks.filter (fun t => t.project_id == pid)).length = 0 →
      update_project_progress db pid = (db, 0)) ∧
    (∀ p, db.getProject pid = some p →
      0 < (db.tasks.filter (fun t => t.project_id == pid)).length →
      (update_project_progress db pid).2 =
        100 * ((db.tasks.filter (fun t => t.project_id == pid &&
            t.status == "completed")).length : ℚ) /
          ((db.tasks.filter (fun t => t.project_id == pid)).length : ℚ) ∧
      (update_project_progress db pid).1.getProject pid =
        some { p with
               completion_percentage :=
                 pyRound2 (100 *
                   ((db.tasks.filter (fun t => t.project_id == pid &&
                       t.status == "completed")).length : ℚ) /
                   ((db.tasks.filter
                       (fun t => t.project_id == pid)).length : ℚ)) }) ∧
    update_project_progress (update_project_progress db pid).1 pid =
      ((update_project_progress db pid).1, (update_project_progress db pid).2) := by
  have harith : ∀ c t : ℚ, c / t * 100 = 100 * c / t := by
    intro c t
    ring
  refine ⟨?_, ?_, ?_⟩
  · intro h0
    cases hP : db.getProject pid with
    | none => simp [update_project_progress, hP]
    | some p =>
      simp only [update_project_progress, hP]
      rw [if_neg]
      rw [h0]
      exact Nat.lt_irrefl 0
  · intro p hP htot
    constructor
    · simp only [update_project_progress, hP]
      rw [if_pos htot]
      exact harith _ _
    · simp only [update_project_progress, hP]
      rw [if_pos htot]
      show (DB.updateProject db pid _).getProject pid = _
      rw [getProject_updateProject db pid pid
        (fun q => { q with
                    completion_percentage :=
                      pyRound2
                        (((db.tasks.filter (fun t => t.project_id == pid &&
                            t.status == "completed")).length : ℚ) /
                          ((db.tasks.filter
                            (fun t => t.project_id == pid)).length : ℚ) *
                          100) })
        (fun q => rfl), hP]
      have hid : p.id = pid := getProject_id hP
      rw [harith]
      simp [hid]
  · cases hP : db.getProject pid with
    | none =>
      have he : update_project_progress db pid = (db, 0) := by
        simp [update_project_progress, hP]
      rw [he]
      exact he
    | some p =>
      by_cases htot :
          0 < (db.tasks.filter (fun t => t.project_id == pid)).length
      · have hid : p.id = pid := getProject_id hP
        set v : ℚ := ((db.tasks.filter (fun t => t.project_id == pid &&
            t.status == "completed")).length : ℚ) /
          ((db.tasks.filter (fun t => t.project_id == pid)).length : ℚ) * 100
          with hv
        have he : update_project_progress db pid =
            (db.updateProject pid
              (fun q => { q with completion_percentage := pyRound2 v }), v) := by
          simp only [update_project_progress, hP]
          rw [if_pos htot]
        rw [he]
        have hP2 : (db.updateProject pid
            (fun q => { q with completion_percentage := pyRound2 v })).getProject
            pid = some { p with completion_percentage := pyRound2 v } := by
          rw [getProject_updateProject db pid pid
            (fun q => { q with completion_percentage := pyRound2 v })
            (fun q => rfl), hP]
          simp [hid]
        have htasks : (db.updateProject pid
            (fun q => { q with completion_percentage := pyRound2 v })).tasks =
            db.tasks := rfl
        have he2 : update_project_progress
            (db.updateProject pid
              (fun q => { q with completion_percentage := pyRound2 v })) pid =
            ((db.updateProject pid
              (fun q => { q with completion_percentage := pyRound2 v })).updateProject
                pid (fun q => { q with completion_percentage := pyRound2 v }), v) := by
          simp only [update_project_progress, hP2, htasks]
          rw [if_pos htot]
        rw [he2]
        have hcancel : (db.updateProject pid
            (fun q => { q with completion_percentage := pyRound2 v })).updateProject
              pid (fun q => { q with completion_percentage := pyRound2 v }) =
            db.updateProject pid
              (fun q => { q with completion_percentage := pyRound2 v }) := by
          show ({ db with projects := _ } : DB) = _
          unfold DB.updateProject
          rw [List.map_map]
          congr 1
          apply map_congr_mem
          intro q _
          by_cases hq : (q.id == pid) = true <;>
            simp [Function.comp, hq]
        rw [hcancel]
      · have he : update_project_progress db pid = (db, 0) := by
          simp only [update_project_progress, hP]
          rw [if_neg htot]
        rw [he]
        exact he

/-- C6 witness: a project with one completed task out of two. -/
theorem C6_progress_recompute_witness :
    let db : DB :=
      { projects := [{ id := 1, user_id := 1 }],
        agents := [],
        tasks := [{ id := 1, project_id := 1, stage := 1,
                    status := "completed" },
                  { id := 2, project_id := 1, stage := 1,
                    status := "pending" }],
        executions := [], nextTaskId := 3, nextExecId := 1 }
    (update_project_progress db 1).2 =
      100 * ((db.tasks.filter (fun t => t.project_id == 1 &&
          t.status == "completed")).length : ℚ) /
        ((db.tasks.filter (fun t => t.project_id == 1)).length : ℚ) ∧
    (update_project_progress db 1).1.getProject 1 =
      some { id := 1, user_id := 1,
             completion_percentage :=
               pyRound2 (100 *
                 ((db.tasks.filter (fun t => t.project_id == 1 &&
                     t.status == "completed")).length : ℚ) /
                 ((db.tasks.filter
                     (fun t => t.project_id == 1)).length : ℚ)) } ∧
    update_project_progress (update_project_progress db 1).1 1 =
      ((update_project_progress db 1).1, (update_project_progress db 1).2) := by
  intro db
  obtain ⟨h1, h2, h3⟩ := C6_progress_recompute db 1
  obtain ⟨h4, h5⟩ := h2 { id := 1, user_id := 1 } (by rfl) (by decide)
  exact ⟨h4, h5, h3⟩

theorem pipeline_getProject (oracle : Nat → ExecOutcome) (db : DB)
    (pid s : Nat) {p : Project} (hp : db.getProject pid = some p) :
    (process_project_pipeline oracle db pid s).1.getProject pid =
      some { p with stage := s,
                    status := (stageStatusMap s).getD p.status } := by
  rw [pipeline_eq oracle db pid s hp]
  exact getProject_after_finalize pid s
    (by rw [runTasks_projects, ensureTasks_projects]) hp

/-- A minimal concrete state for the witnesses: one fresh project owned
by user 1 and one active stage-1 agent. -/
def wdb : DB :=
  { projects := [{ id := 1, user_id := 1 }],
    agents := [{ id := 1, name := "A", stage := 1 }],
    tasks := [], executions := [], nextTaskId := 1, nextExecId := 1 }

/-- A concrete state whose only project is already at stage 5. -/
def wdbHigh : DB :=
  { projects := [{ id := 1, user_id := 1, stage := 5,
                   status := "operating" }],
    agents := [], tasks := [], executions := [],
    nextTaskId := 1, nextExecId := 1 }

/-- C2 (amended claim): after any successful stage run the project's
`stage` column equals the stage just run, and the stage does not
decrease provided the requested stage is at least the project's current
stage — which is how every call site invokes the runner
(`advance_project_stage` passes `project.stage + 1` and project creation
starts stage 1 on a fresh stage-1 project).  Without that side
condition the as-stated claim is false: `process_project_pipeline`
assigns `project.stage = stage` unconditionally (line 302), see the
counterexample. -/
theorem C2_stage_set_monotone (oracle : Nat → ExecOutcome) (db : DB)
    (pid s : Nat) {p : Project} (hp : db.getProject pid = some p)
    (hcall : p.stage ≤ s) :
    (((process_project_pipeline oracle db pid s).1.getProject pid).map
      (fun q => q.stage)) = some s ∧
    p.stage ≤ ((((process_project_pipeline oracle db pid s).1.getProject
      pid).map (fun q => q.stage)).getD 0) := by
  rw [pipeline_getProject oracle db pid s hp]
  exact ⟨rfl, hcall⟩

/-- C2 witness: the amended claim evaluated on a fresh stage-1 project
advanced to stage 2. -/
theorem C2_stage_set_monotone_witness :
    (((process_project_pipeline (fun _ => ExecOutcome.ok) wdb 1 2).1.getProject
        1).map (fun q => q.stage)) = some 2 ∧
    1 ≤ ((((process_project_pipeline (fun _ => ExecOutcome.ok) wdb 1
        2).1.getProject 1).map (fun q => q.stage)).getD 0) :=
  C2_stage_set_monotone (fun _ => ExecOutcome.ok) wdb 1 2 (by rfl) (by decide)

/-- C2 counterexample: running stage 2 on a project already at stage 5
succeeds and lowers `project.stage` from 5 to 2, refuting the claim
that the stage field is never less than its value before the call. -/
theorem C2_counterexample :
    ((wdbHigh.getProject 1).map (fun q => q.stage) = some 5) ∧
    ((process_project_pipeline (fun _ => ExecOutcome.ok) wdbHigh
      1 2).2.1.toOption.isSome = true) ∧
    (((process_project_pipeline (fun _ => ExecOutcome.ok) wdbHigh
      1 2).1.getProject 1).map (fun q => q.stage) = some 2) := by
  exact ⟨rfl, rfl, rfl⟩

/-- C5: after a stage run the project's status equals the fixed
stage-to-status mapping for stages 2-6, while a stage-1 run leaves the
status unchanged — in particular it remains `idea` on a fresh stage-1
project, the only projects stage 1 is run on. -/
theorem C5_status_derivation (oracle : Nat → ExecOutcome) (db : DB)
    (pid s : Nat) {p : Project} (hp : db.getProject pid = some p) :
    (s = 2 → (((process_project_pipeline oracle db pid s).1.getProject
      pid).map (fun q => q.status)) = some "validating") ∧
    (s = 3 → (((process_project_pipeline oracle db pid s).1.getProject
      pid).map (fun q => q.status)) = some "developing") ∧
    (s = 4 → (((process_project_pipeline oracle db pid s).1.getProject
      pid).map (fun q => q.status)) = some "marketing") ∧
    (s = 5 → (((process_project_pipeline oracle db pid s).1.getProject
      pid).map (fun q => q.status)) = some "operating") ∧
    (s = 6 → (((process_project_pipeline oracle db pid s).1.getProject
      pid).map (fun q => q.status)) = some "scaling") ∧
    (s = 1 → (((process_project_pipeline oracle db pid s).1.getProject
      pid).map (fun q => q.status)) = some p.status) := by
  refine ⟨?_, ?_, ?_, ?_, ?_, ?_⟩ <;> intro hs <;> subst hs <;>
    rw [pipeline_getProject oracle db pid _ hp] <;> rfl

/-- C5 witness: the stage-2 mapping and the stage-1 no-change clause on
a fresh project whose status is `idea`. -/
theorem C5_status_derivation_witness :
    (((process_project_pipeline (fun _ => ExecOutcome.ok) wdb
      1 2).1.getProject 1).map (fun q => q.status)) = some "validating" ∧
    (((process_project_pipeline (fun _ => ExecOutcome.ok) wdb
      1 1).1.getProject 1).map (fun q => q.status)) = some "idea" :=
  ⟨(C5_status_derivation (fun _ => ExecOutcome.ok) wdb 1 2 (by rfl)).1 rfl,
   (C5_status_derivation (fun _ => ExecOutcome.ok) wdb 1 1
     (by rfl)).2.2.2.2.2 rfl⟩

/-- C3: per-agent failure isolation of the stage runner.  Only a
missing project makes `process_project_pipeline` raise; for an existing
project the call returns `ok` for every oracle — even one that raises
for every agent.  The returned `results` list carries exactly one entry
per processed task, whose (agent, status, error) projection is
determined task-by-task by the oracle (`expectedProj`): in particular a
task whose executor raised yields a `failed` entry carrying the
exception message, and the loop still produces the entries of all later
tasks.  `agents_triggered` equals the length of `results`, the project
advances to the stage regardless of failures, and every processed task
ends the run settled (completed, or failed with the recorded error
message). -/
theorem C3_partial_failure_isolation (oracle : Nat → ExecOutcome) (db : DB)
    (pid s : Nat) (hwf : db.WF) :
    (db.getProject pid = none →
      (process_project_pipeline oracle db pid s).2.1 =
        Except.error ("Project " ++ toString pid ++ " not found")) ∧
    (∀ p, db.getProject pid = some p →
      ((process_project_pipeline oracle db pid s).2.1.toOption.map
        (fun r => r.results.map outcomeProj)) =
        some ((ensureTasks db pid s).2.filterMap
          (expectedProj oracle false (ensureTasks db pid s).1)) ∧
      ((process_project_pipeline oracle db pid s).2.1.toOption.map
        (fun r => r.agents_triggered)) =
        ((process_project_pipeline oracle db pid s).2.1.toOption.map
          (fun r => r.results.length)) ∧
      (((process_project_pipeline oracle db pid s).1.getProject pid).map
        (fun q => q.stage)) = some s ∧
      (∀ tid ∈ (ensureTasks db pid s).2, ∀ t,
        (process_project_pipeline oracle db pid s).1.getTask tid = some t →
        settledTask oracle db.hasAgent t)) := by
  constructor
  · intro hP
    simp [process_project_pipeline, hP]
  · intro p hp
    have hnd := ensureTasks_tids_nodup db pid s hwf
    refine ⟨?_, ?_, ?_, ?_⟩
    · rw [pipeline_eq oracle db pid s hp]
      show some ((runTasks oracle false (ensureTasks db pid s).1 pid
        p.idea_source (ensureTasks db pid s).2).2.1.map outcomeProj) = some _
      rw [runTasks_outs oracle false pid p.idea_source
        (ensureTasks db pid s).2 (ensureTasks db pid s).1 hnd]
    · rw [pipeline_eq oracle db pid s hp]
      rfl
    · rw [pipeline_getProject oracle db pid s hp]
      rfl
    · intro tid htid t ht
      have hTeq : (process_project_pipeline oracle db pid s).1.tasks =
          (runTasks oracle false (ensureTasks db pid s).1 pid p.idea_source
            (ensureTasks db pid s).2).1.tasks := by
        rw [pipeline_eq oracle db pid s hp]
        rfl
      rw [getTask_congr hTeq tid] at ht
      have hsett := runTasks_settles oracle false pid p.idea_source
        (ensureTasks db pid s).2 (ensureTasks db pid s).1 tid htid t ht
      refine settledTask_congr ?_ hsett
      intro x
      unfold DB.hasAgent
      rw [getAgent_congr (ensureTasks_agents db pid s) x]

/-- Three active stage-1 agents for the spec's partial-failure
scenario. -/
def wdb3 : DB :=
  { projects := [{ id := 1, user_id := 1 }],
    agents := [{ id := 1, name := "A", stage := 1 },
               { id := 2, name := "B", stage := 1 },
               { id := 3, name := "C", stage := 1 }],
    tasks := [], executions := [], nextTaskId := 1, nextExecId := 1 }

/-- An executor stub that raises for agent 2 and succeeds otherwise. -/
def worc3 : Nat → ExecOutcome :=
  fun aid => if aid = 2 then .exn "boom" else .ok

/-- C3 witness: the spec's three-agent scenario with the middle agent
raising. -/
theorem C3_partial_failure_isolation_witness :
    ((process_project_pipeline worc3 wdb3 1 1).2.1.toOption.map
      (fun r => r.results.map outcomeProj)) =
      some ((ensureTasks wdb3 1 1).2.filterMap
        (expectedProj worc3 false (ensureTasks wdb3 1 1).1)) ∧
    (((process_project_pipeline worc3 wdb3 1 1).1.getProject 1).map
      (fun q => q.stage)) = some 1 :=
  ⟨((C3_partial_failure_isolation worc3 wdb3 1 1 (by decide)).2
      { id := 1, user_id := 1 } (by rfl)).1,
   ((C3_partial_failure_isolation worc3 wdb3 1 1 (by decide)).2
      { id := 1, user_id := 1 } (by rfl)).2.2.1⟩

theorem getAgent_updateAgent_self (db : DB) {aid : Nat} {a : Agent}
    (hg : db.getAgent aid = some a) (f : Agent → Agent)
    (hf : ∀ u, (f u).id = u.id) :
    (db.updateAgent aid f).getAgent aid = some (f a) := by
  rw [getAgent_updateAgent db aid aid f hf, hg]
  have : a.id = aid := getAgent_id hg
  simp [this]

theorem agentStatus_after_set (db : DB) (aid : Nat) (st : String)
    (hsome : (db.getAgent aid).isSome = true) :
    ((db.updateAgent aid (fun a => { a with status := st })).getAgent
      aid).map (fun b => b.status) = some st := by
  rw [getAgent_updateAgent db aid aid (fun a => { a with status := st })
    (fun a => rfl)]
  cases hg : db.getAgent aid with
  | none => rw [hg] at hsome; cases hsome
  | some b =>
    have : b.id = aid := getAgent_id hg
    simp [this]

theorem hasAgent_updateAgent (db : DB) (aid x : Nat) (f : Agent → Agent)
    (hf : ∀ a, (f a).id = a.id) :
    (db.updateAgent aid f).hasAgent x = db.hasAgent x := by
  unfold DB.hasAgent
  rw [getAgent_updateAgent db aid x f hf]
  cases db.getAgent x <;> rfl

theorem getAgent_updateAgent_self2 {dbX db : DB}
    (hag : dbX.agents = db.agents) {aid : Nat} {a : Agent}
    (hg : db.getAgent aid = some a) (f : Agent → Agent)
    (hf : ∀ u, (f u).id = u.id) :
    (dbX.updateAgent aid f).getAgent aid = some (f a) := by
  have hg2 : dbX.getAgent aid = some a := by
    rw [getAgent_congr hag]
    exact hg
  exact getAgent_updateAgent_self dbX hg2 f hf

/-- C8: every completed call to `AIProviderFactory.execute_agent`
increments the agent's `total_executions` by exactly one, and its
`success_rate` is recomputed incrementally as
`(old_rate * (n - 1) + (success ? 100 : 0)) / n` with `n` the
post-increment `total_executions` (`ai_providers.py` lines 192-198).
The hypothesis excludes the structural-failure case in which the call
raises before the counters are touched. -/
theorem C8_execution_counters (oracle : Nat → ExecOutcome) (db : DB)
    (aid : Nat) (pr : String) (pI tI : Option Nat) {a : Agent}
    (ha : db.getAgent aid = some a) (hnoexn : ∀ m, oracle aid ≠ .exn m) :
    ((execute_agent oracle db aid pr pI tI).1.getAgent aid).map
      (fun b => b.total_executions) = some (a.total_executions + 1) ∧
    ((execute_agent oracle db aid pr pI tI).1.getAgent aid).map
      (fun b => b.success_rate) =
      some ((a.success_rate * (((a.total_executions + 1 : Nat) : ℚ) - 1) +
        (if oracle aid = .ok then 100 else 0)) /
        ((a.total_executions + 1 : Nat) : ℚ)) := by
  cases ho : oracle aid with
  | exn m => exact absurd ho (hnoexn m)
  | ok =>
    simp only [execute_agent, ho]
    rw [getAgent_updateAgent_self2 _ ha]
    · constructor
      · rfl
      · show some _ = some _
        congr 1
        push_cast
        norm_num
    · intro u; rfl
    · rfl
  | fail e =>
    simp only [execute_agent, ho]
    rw [getAgent_updateAgent_self2 _ ha]
    · constructor
      · rfl
      · show some _ = some _
        congr 1
        push_cast
        norm_num
    · intro u; rfl
    · rfl

/-- C8 witness: a successful execution on a fresh agent. -/
theorem C8_execution_counters_witness :
    ((execute_agent (fun _ => ExecOutcome.ok) wdb 1 "p" none
      none).1.getAgent 1).map (fun b => b.total_executions) = some 1 ∧
    ((execute_agent (fun _ => ExecOutcome.ok) wdb 1 "p" none
      none).1.getAgent 1).map (fun b => b.success_rate) =
      some ((0 * (((0 + 1 : Nat) : ℚ) - 1) +
        (if (fun _ => ExecOutcome.ok) 1 = ExecOutcome.ok then 100 else 0)) /
        (((0 + 1 : Nat) : ℚ))) :=
  C8_execution_counters (fun _ => ExecOutcome.ok) wdb 1 "p" none none
    (by rfl) (fun m h => ExecOutcome.noConfusion h)

/-- C7 (amended claim): after an execution attempt through
`execute_agent_async` the agent's `status` returns to `idle` when the
attempt completes — whether it succeeded or was a business failure —
but when the call raises, the exception handler of
`celery_tasks.py` lines 135-152 sets the status to `error`, not
`idle`.  The as-stated claim (always back to `idle`) is refuted by the
counterexample. -/
theorem C7_agent_status (oracle : Nat → ExecOutcome) (db : DB) (aid : Nat)
    (pr : String) (pI tI : Option Nat) {a : Agent}
    (ha : db.getAgent aid = some a) :
    ((∀ m, oracle aid ≠ .exn m) →
      ((execute_agent_async oracle db aid pr pI tI).1.getAgent aid).map
        (fun b => b.status) = some "idle") ∧
    (∀ m, oracle aid = .exn m →
      ((execute_agent_async oracle db aid pr pI tI).1.getAgent aid).map
        (fun b => b.status) = some "error") := by
  have hdb : db.hasAgent aid = true := by
    unfold DB.hasAgent
    rw [ha]
    rfl
  have hrun : (db.updateAgent aid
      (fun b => { b with status := "running" })).hasAgent aid = true := by
    rw [hasAgent_updateAgent db aid aid
      (fun b => { b with status := "running" }) (fun b => rfl)]
    exact hdb
  constructor
  · intro hne
    cases tI with
    | none =>
      simp only [execute_agent_async, ha]
      cases hE : execute_agent oracle
          (db.updateAgent aid fun b => { b with status := "running" })
          aid pr pI none with
      | mk db3 r =>
        have hh := execute_agent_hasAgent oracle
          (db.updateAgent aid fun b => { b with status := "running" })
          aid pr pI none aid
        rw [hE] at hh
        have hh2 : db3.hasAgent aid = true := by
          rw [show (db3, r).1.hasAgent aid = db3.hasAgent aid from rfl] at hh
          rw [hh]
          exact hrun
        cases r with
        | error msg =>
          have := (execute_agent_error_char oracle _ aid pr pI none hE).1
          exact absurd this (hne msg)
        | ok res =>
          dsimp only
          cases pI with
          | none =>
            apply agentStatus_after_set
            exact hh2
          | some pid =>
            apply agentStatus_after_set
            show DB.hasAgent _ aid = true
            unfold DB.hasAgent
            rw [getAgent_congr (update_project_progress_agents db3 pid) aid]
            exact hh2
    | some tid =>
      simp only [execute_agent_async, ha]
      cases hE : execute_agent oracle
          ((db.updateAgent aid fun b =>
            { b with status := "running" }).updateTask tid
            fun t => { t with status := "processing" })
          aid pr pI (some tid) with
      | mk db3 r =>
        have hh := execute_agent_hasAgent oracle
          ((db.updateAgent aid fun b =>
            { b with status := "running" }).updateTask tid
            fun t => { t with status := "processing" })
          aid pr pI (some tid) aid
        rw [hE] at hh
        have hh2 : db3.hasAgent aid = true := by
          rw [show (db3, r).1.hasAgent aid = db3.hasAgent aid from rfl] at hh
          rw [hh]
          show (DB.updateAgent db aid
            (fun b => { b with status := "running" })).hasAgent aid = true
          exact hrun
        cases r with
        | error msg =>
          have := (execute_agent_error_char oracle _ aid pr pI
            (some tid) hE).1
          exact absurd this (hne msg)
        | ok res =>
          dsimp only
          by_cases hs : res.success = true
          · rw [hs]
            dsimp only
            cases pI with
            | none =>
              apply agentStatus_after_set
              show DB.hasAgent db3 aid = true
              exact hh2
            | some pid =>
              apply agentStatus_after_set
              show DB.hasAgent _ aid = true
              unfold DB.hasAgent
              rw [getAgent_congr (update_project_progress_agents _ pid) aid]
              show DB.hasAgent db3 aid = true
              exact hh2
          · have hsf : res.success = false := by
              revert hs
              cases res.success <;> simp
            rw [hsf]
            dsimp only
            cases pI with
            | none =>
              apply agentStatus_after_set
              exact hh2
            | some pid =>
              apply agentStatus_after_set
              show DB.hasAgent _ aid = true
              unfold DB.hasAgent
              rw [getAgent_congr (update_project_progress_agents db3 pid) aid]
              exact hh2
  · intro m ho
    cases tI with
    | none =>
      simp only [execute_agent_async, ha, execute_agent, ho]
      apply agentStatus_after_set
      exact hrun
    | some tid =>
      simp only [execute_agent_async, ha, execute_agent, ho]
      show (((((db.updateAgent aid fun b =>
                { b with status := "running" }).updateTask tid
                (fun t => { t with status := "processing" })).updateAgent aid
                (fun b => { b with status := "error" })).updateTask tid
                (fun t => { t with
                            status := "failed",
                            error_message := some (m.take 500) })).getAgent
          aid).map (fun b => b.status) = some "error"
      show ((((db.updateAgent aid fun b =>
                { b with status := "running" }).updateTask tid
                (fun t => { t with status := "processing" })).updateAgent aid
                (fun b => { b with status := "error" })).getAgent
          aid).map (fun b => b.status) = some "error"
      apply agentStatus_after_set
      show (DB.updateAgent db aid
        (fun b => { b with status := "running" })).hasAgent aid = true
      exact hrun

/-- C7 counterexample: when the executor raises, the agent's status
after the attempt is `error`, not `idle`, refuting the claim that the
status returns to `idle` after every execution attempt. -/
theorem C7_agent_status_counterexample :
    (((execute_agent_async (fun _ => ExecOutcome.exn "boom") wdb 1 "p"
      none none).1.getAgent 1).map (fun b => b.status)) = some "error" ∧
    some "error" ≠ some "idle" := by
  constructor
  · rfl
  · decide

/-- C7 witness: a business failure (success=False, no exception) still
returns the agent to `idle`. -/
theorem C7_agent_status_witness :
    ((execute_agent_async (fun _ => ExecOutcome.fail "no") wdb 1 "p"
      none none).1.getAgent 1).map (fun b => b.status) = some "idle" :=
  (C7_agent_status (fun _ => ExecOutcome.fail "no") wdb 1 "p" none none
    (by rfl)).1 (fun m h => ExecOutcome.noConfusion h)

/-- The 501-character exception message used as the failing input for
the error-message truncation claim. -/
def longMsg : String := String.mk (List.replicate 501 'x')

set_option maxRecDepth 4000 in
/-- C9 failing input: when an executor exception is caught inside
`process_project_pipeline` (lines 278-281), the task's `error_message`
is assigned `str(e)` with no `[:500]` truncation, so a 501-character
exception message is stored in full — violating the 500-character
bound.  The sibling paths (`execute_agent_async` line 147 and the
synchronous fallback in `app.py` line 731) both truncate with
`str(e)[:500]` and the comment `Limit error message length`, which
makes the pipeline path a slip rather than a design choice. -/
theorem C9_untruncated_error_message :
    ((process_project_pipeline (fun _ => ExecOutcome.exn longMsg) wdb
      1 1).1.getTask 1) = some { id := 1, project_id := 1,
                                 agent_id := some 1,
                                 title := "A - Stage 1", stage := 1,
                                 status := "failed",
                                 error_message := some longMsg } ∧
    longMsg.length = 501 ∧ ¬ longMsg.length ≤ 500 := by
  refine ⟨rfl, rfl, by decide⟩

/-! ### Lemmas about `auto_run_project` -/

theorem auto_run_stage_fault (oracle : Nat → ExecOutcome)
    (fault : Nat → Option String) (db : DB) (pid s : Nat) (pr : String)
    {msg : String} (hf : fault s = some msg) :
    auto_run_stage oracle fault db pid s pr =
      (db.updateProject pid (fun p => { p with stage := s }),
       { stage := s, status := "failed", error := some msg,
         result := none }) := by
  simp only [auto_run_stage, hf]

theorem auto_run_stage_ok_entry (oracle : Nat → ExecOutcome)
    (fault : Nat → Option String) (db : DB) (pid s : Nat) (pr : String)
    (hf : fault s = none) :
    (auto_run_stage oracle fault db pid s pr).2.status = "completed" ∧
    (auto_run_stage oracle fault db pid s pr).2.stage = s ∧
    (auto_run_stage oracle fault db pid s pr).2.error = none ∧
    (auto_run_stage oracle fault db pid s pr).2.result.isSome = true := by
  simp [auto_run_stage, hf]

theorem auto_run_stage_ok_getProject (oracle : Nat → ExecOutcome)
    (fault : Nat → Option String) (db : DB) (pid s : Nat) (pr : String)
    {p : Project} (hp : db.getProject pid = some p) (hf : fault s = none) :
    (auto_run_stage oracle fault db pid s pr).1.getProject pid =
      some { p with stage := s,
                    status := (stageStatusMap s).getD p.status } := by
  simp only [auto_run_stage, hf]
  have hX : (runTasks oracle true (ensureTasks (db.updateProject pid
      (fun q => { q with stage := s })) pid s).1 pid pr
      (ensureTasks (db.updateProject pid (fun q => { q with stage := s }))
        pid s).2).1.projects =
      (db.updateProject pid (fun q => { q with stage := s })).projects := by
    rw [runTasks_projects, ensureTasks_projects]
  rw [getProject_updateProject _ pid pid
    (fun q => { q with status := (stageStatusMap s).getD q.status })
    (fun q => rfl)]
  rw [getProject_congr hX pid]
  rw [getProject_updateProject db pid pid
    (fun q => { q with stage := s }) (fun q => rfl), hp]
  have hid : p.id = pid := getProject_id hp
  simp [hid]

/-- The per-stage entries of an auto-run answer. -/
def AutoRunAnswer.entries : AutoRunAnswer → List StageEntry
  | .denied _ => []
  | .done _ _ es => es

/-- The reported `final_stage` of an auto-run answer. -/
def AutoRunAnswer.finalStage : AutoRunAnswer → Nat
  | .denied _ => 0
  | .done _ fs _ => fs

theorem auto_run_loop_abort (oracle : Nat → ExecOutcome)
    (fault : Nat → Option String) (pid : Nat) (pr : String) (s : Nat)
    (msg : String) :
    ∀ (stages : List Nat) (db : DB) (p : Project),
      db.getProject pid = some p →
      stages.Pairwise (fun x y => x < y) →
      s ∈ stages → p.stage < s →
      (∀ x ∈ stages, x < s → fault x = none) →
      fault s = some msg →
      ∃ pre,
        (auto_run_loop oracle fault db pid pr stages).2 =
          pre ++ [{ stage := s, status := "failed", error := some msg,
                    result := none }] ∧
        (∀ e ∈ pre, e.status = "completed" ∧ e.stage < s ∧
          e.result.isSome = true) ∧
        ((auto_run_loop oracle fault db pid pr stages).1.getProject pid).map
          (fun q => q.stage) = some s := by
  intro stages
  induction stages with
  | nil =>
    intro db p hp hsort hmem
    cases hmem
  | cons x rest ih =>
    intro db p hp hsort hmem hlt hnone hfault
    have hxlt := (List.pairwise_cons.mp hsort).1
    have hsrest := (List.pairwise_cons.mp hsort).2
    by_cases hge : p.stage ≥ x
    · have hsne : s ≠ x := by
        intro hcontra
        rw [hcontra] at hlt
        omega
      have hsmem : s ∈ rest := by
        cases List.mem_cons.mp hmem with
        | inl h => exact absurd h hsne
        | inr h => exact h
      have heq : auto_run_loop oracle fault db pid pr (x :: rest) =
          auto_run_loop oracle fault db pid pr rest := by
        simp only [auto_run_loop, hp]
        rw [if_pos hge]
      rw [heq]
      exact ih db p hp hsrest hsmem hlt
        (fun y hy hys => hnone y (List.mem_cons_of_mem _ hy) hys) hfault
    · by_cases hsx : s = x
      · subst hsx
        have hstep := auto_run_stage_fault oracle fault db pid s pr hfault
        have heq : auto_run_loop oracle fault db pid pr (s :: rest) =
            ((auto_run_stage oracle fault db pid s pr).1,
             [(auto_run_stage oracle fault db pid s pr).2]) := by
          simp only [auto_run_loop, hp]
          rw [if_neg hge, if_pos (by rw [hstep]; rfl)]
        rw [heq, hstep]
        refine ⟨[], rfl, (fun e he => absurd he (List.not_mem_nil e)), ?_⟩
        rw [getProject_updateProject db pid pid
          (fun q => { q with stage := s }) (fun q => rfl), hp]
        have hid : p.id = pid := getProject_id hp
        simp [hid]
      · have hsmem : s ∈ rest := by
          cases List.mem_cons.mp hmem with
          | inl h => exact absurd h hsx
          | inr h => exact h
        have hxs : x < s := hxlt s hsmem
        have hfx : fault x = none := hnone x (by simp) hxs
        have hent := auto_run_stage_ok_entry oracle fault db pid x pr hfx
        have hproj := auto_run_stage_ok_getProject oracle fault db pid x pr
          hp hfx
        have heq : auto_run_loop oracle fault db pid pr (x :: rest) =
            ((auto_run_loop oracle fault
              (auto_run_stage oracle fault db pid x pr).1 pid pr rest).1,
             (auto_run_stage oracle fault db pid x pr).2 ::
              (auto_run_loop oracle fault
                (auto_run_stage oracle fault db pid x pr).1 pid pr rest).2) := by
          simp only [auto_run_loop, hp]
          rw [if_neg hge, if_neg (by rw [hent.1]; decide)]
        obtain ⟨pre2, hEq2, hPre2, hProj2⟩ := ih
          (auto_run_stage oracle fault db pid x pr).1
          { p with stage := x, status := (stageStatusMap x).getD p.status }
          hproj hsrest hsmem (by show x < s; exact hxs)
          (fun y hy hys => hnone y (List.mem_cons_of_mem _ hy) hys) hfault
        refine ⟨(auto_run_stage oracle fault db pid x pr).2 :: pre2, ?_, ?_, ?_⟩
        · rw [heq]
          show _ :: _ = _
          rw [hEq2]
          rfl
        · intro e he
          cases List.mem_cons.mp he with
          | inl h =>
            subst h
            exact ⟨hent.1, by rw [hent.2.1]; exact hxs, hent.2.2.2⟩
          | inr h => exact hPre2 e h
        · rw [heq]
          exact hProj2

theorem auto_run_loop_nofault (oracle : Nat → ExecOutcome)
    (fault : Nat → Option String) (pid : Nat) (pr : String) :
    ∀ (stages : List Nat) (db : DB) (p : Project),
      db.getProject pid = some p →
      (∀ x ∈ stages, fault x = none) →
      ((auto_run_loop oracle fault db pid pr stages).1.getProject pid).map
        (fun q => q.stage) = some (stages.foldl max p.stage) := by
  intro stages
  induction stages with
  | nil =>
    intro db p hp hnone
    show (db.getProject pid).map (fun q => q.stage) = _
    rw [hp]
    rfl
  | cons x rest ih =>
    intro db p hp hnone
    have hfx : fault x = none := hnone x (by simp)
    by_cases hge : p.stage ≥ x
    · have heq : auto_run_loop oracle fault db pid pr (x :: rest) =
          auto_run_loop oracle fault db pid pr rest := by
        simp only [auto_run_loop, hp]
        rw [if_pos hge]
      rw [heq]
      have : rest.foldl max p.stage = (x :: rest).foldl max p.stage := by
        show _ = rest.foldl max (max p.stage x)
        rw [Nat.max_eq_left hge]
      rw [← this]
      exact ih db p hp (fun y hy => hnone y (List.mem_cons_of_mem _ hy))
    · have hent := auto_run_stage_ok_entry oracle fault db pid x pr hfx
      have hproj := auto_run_stage_ok_getProject oracle fault db pid x pr
        hp hfx
      have heq : auto_run_loop oracle fault db pid pr (x :: rest) =
          ((auto_run_loop oracle fault
            (auto_run_stage oracle fault db pid x pr).1 pid pr rest).1,
           (auto_run_stage oracle fault db pid x pr).2 ::
            (auto_run_loop oracle fault
              (auto_run_stage oracle fault db pid x pr).1 pid pr rest).2) := by
        simp only [auto_run_loop, hp]
        rw [if_neg hge, if_neg (by rw [hent.1]; decide)]
      rw [heq]
      have hih := ih (auto_run_stage oracle fault db pid x pr).1
        { p with stage := x, status := (stageStatusMap x).getD p.status }
        hproj (fun y hy => hnone y (List.mem_cons_of_mem _ hy))
      have hmax : max p.stage x = x := Nat.max_eq_right (Nat.le_of_not_le hge)
      show ((auto_run_loop oracle fault
        (auto_run_stage oracle fault db pid x pr).1 pid pr
        rest).1.getProject pid).map (fun q => q.stage) =
        some (rest.foldl max (max p.stage x))
      rw [hmax]
      exact hih

theorem auto_run_project_eq (oracle : Nat → ExecOutcome)
    (fault : Nat → Option String) (db : DB) (pid uid : Nat) {p : Project}
    (hp : db.getProject pid = some p) (hu : p.user_id = uid) :
    auto_run_project oracle fault db pid uid =
      ((auto_run_loop oracle fault db pid p.idea_source
         [1, 2, 3, 4, 5, 6]).1,
       .done pid ((((auto_run_loop oracle fault db pid p.idea_source
           [1, 2, 3, 4, 5, 6]).1.getProject pid).map
           (fun q => q.stage)).getD 0)
         (auto_run_loop oracle fault db pid p.idea_source
           [1, 2, 3, 4, 5, 6]).2) := by
  simp only [auto_run_project, hp]
  rw [if_neg (by simp [hu])]

/-- C4 (amended claim): a stage-level exception — one raised by the
stage body outside the per-agent handler, modelled by the `stageFault`
oracle and firing after the stage-set commit — aborts auto-run: a
failed entry for the faulted stage is recorded, every earlier entry is
a completed entry of a lower stage carrying its stage results, and no
stage above the faulted one is attempted.  The claim as stated — that
an exception raised by the executor on stage 3 aborts the run — is
false on the code: executor exceptions are caught per agent inside the
stage loop (lines 529-538) and never reach the stage-level handler,
see the counterexample. -/
theorem C4_auto_run_abort (oracle : Nat → ExecOutcome)
    (fault : Nat → Option String) (db : DB) (pid uid s : Nat) (msg : String)
    {p : Project} (hp : db.getProject pid = some p) (hu : p.user_id = uid)
    (hmem : s ∈ [1, 2, 3, 4, 5, 6]) (hlt : p.stage < s)
    (hnone : ∀ x ∈ [1, 2, 3, 4, 5, 6], x < s → fault x = none)
    (hfault : fault s = some msg) :
    (auto_run_project oracle fault db pid uid).2.entries.getLast? =
      some { stage := s, status := "failed", error := some msg,
             result := none } ∧
    (∀ e ∈ (auto_run_project oracle fault db pid uid).2.entries.dropLast,
      e.status = "completed" ∧ e.stage < s ∧ e.result.isSome = true) ∧
    (∀ e ∈ (auto_run_project oracle fault db pid uid).2.entries,
      e.stage ≤ s) := by
  obtain ⟨pre, hEq, hPre, hProj⟩ := auto_run_loop_abort oracle fault pid
    p.idea_source s msg [1, 2, 3, 4, 5, 6] db p hp (by decide) hmem hlt
    hnone hfault
  have hent : (auto_run_project oracle fault db pid uid).2.entries =
      pre ++ [{ stage := s, status := "failed", error := some msg,
                result := none }] := by
    rw [auto_run_project_eq oracle fault db pid uid hp hu]
    exact hEq
  refine ⟨?_, ?_, ?_⟩
  · rw [hent]
    exact List.getLast?_concat _
  · rw [hent, List.dropLast_concat]
    exact hPre
  · intro e he
    rw [hent] at he
    cases List.mem_append.mp he with
    | inl h => exact Nat.le_of_lt (hPre e h).2.1
    | inr h =>
      rw [List.mem_singleton] at h
      rw [h]

/-- A fresh project with no agents, for the stage-fault witnesses. -/
def wdbC4 : DB :=
  { projects := [{ id := 1, user_id := 1 }],
    agents := [], tasks := [], executions := [],
    nextTaskId := 1, nextExecId := 1 }

/-- A stage-level fault at stage 3 and none elsewhere. -/
def wfaultC4 : Nat → Option String :=
  fun x => if x = 3 then some "stage-fault" else none

/-- C4 witness: the amended claim at a concrete run whose stage body
faults at stage 3. -/
theorem C4_auto_run_abort_witness :
    (auto_run_project (fun _ => ExecOutcome.ok) wfaultC4 wdbC4
      1 1).2.entries.getLast? =
      some { stage := 3, status := "failed", error := some "stage-fault",
             result := none } :=
  (C4_auto_run_abort (fun _ => ExecOutcome.ok) wfaultC4 wdbC4 1 1 3
    "stage-fault" (by rfl) rfl (by decide) (by decide) (by decide)
    (by rfl)).1

/-- A fresh project with one agent on stage 3 and one on stage 4. -/
def wdbC4x : DB :=
  { projects := [{ id := 1, user_id := 1 }],
    agents := [{ id := 3, name := "C3", stage := 3 },
               { id := 4, name := "C4", stage := 4 }],
    tasks := [], executions := [], nextTaskId := 1, nextExecId := 1 }

/-- C4 counterexample: with the executor raising for the stage-3 agent
and no stage-level fault, auto-run does not abort: stage 3 is recorded
as a completed stage entry (containing the failed agent outcome), and
stages 4-6 are still attempted — refuting the claim that an executor
exception on stage 3 yields a failed stage entry and stops before
stage 4. -/
theorem C4_counterexample :
    ((auto_run_project (fun aid => if aid = 3 then ExecOutcome.exn "kaboom"
        else ExecOutcome.ok) (fun _ => none) wdbC4x 1 1).2.entries.map
      (fun e => (e.stage, e.status))) =
      [(2, "completed"), (3, "completed"), (4, "completed"),
       (5, "completed"), (6, "completed")] ∧
    ((auto_run_project (fun aid => if aid = 3 then ExecOutcome.exn "kaboom"
        else ExecOutcome.ok) (fun _ => none) wdbC4x 1 1).2.entries.map
      (fun e => e.result.map (fun r => r.results.map outcomeProj))) =
      [some [], some [("C3", "failed", some "kaboom")],
       some [("C4", "completed", none)], some [], some []] := by
  exact ⟨rfl, rfl⟩

/-- C10: inside auto-run the project's `stage` column is set and
committed before any of the stage's tasks run (lines 449-450 precede
the task bookkeeping at 455-538).  Consequently, under a stage-level
abort at stage `s` the project ends at stage `s`, the failed entry
carries no task results, and the reported `final_stage` is the stage
being processed at the abort; and when no stage-level exception occurs
a project starting below stage 6 ends at stage 6 for every oracle — in
particular even when every task of every stage fails. -/
theorem C10_stage_committed_before_tasks (oracle : Nat → ExecOutcome)
    (fault : Nat → Option String) (db : DB) (pid uid s : Nat) (msg : String)
    {p : Project} (hp : db.getProject pid = some p) (hu : p.user_id = uid) :
    (s ∈ [1, 2, 3, 4, 5, 6] → p.stage < s →
      (∀ x ∈ [1, 2, 3, 4, 5, 6], x < s → fault x = none) →
      fault s = some msg →
      (auto_run_project oracle fault db pid uid).2.finalStage = s ∧
      (((auto_run_project oracle fault db pid uid).1.getProject pid).map
        (fun q => q.stage)) = some s ∧
      (auto_run_project oracle fault db pid uid).2.entries.getLast? =
        some { stage := s, status := "failed", error := some msg,
               result := none }) ∧
    ((∀ x, fault x = none) → p.stage < 6 →
      (((auto_run_project oracle fault db pid uid).1.getProject pid).map
        (fun q => q.stage)) = some 6 ∧
      (auto_run_project oracle fault db pid uid).2.finalStage = 6) := by
  constructor
  · intro hmem hlt hnone hfault
    obtain ⟨pre, hEq, hPre, hProj⟩ := auto_run_loop_abort oracle fault pid
      p.idea_source s msg [1, 2, 3, 4, 5, 6] db p hp (by decide) hmem hlt
      hnone hfault
    refine ⟨?_, ?_, ?_⟩
    · rw [auto_run_project_eq oracle fault db pid uid hp hu]
      show ((((auto_run_loop oracle fault db pid p.idea_source
        [1, 2, 3, 4, 5, 6]).1.getProject pid).map
        (fun q => q.stage)).getD 0) = s
      rw [hProj]
      rfl
    · rw [auto_run_project_eq oracle fault db pid uid hp hu]
      exact hProj
    · rw [auto_run_project_eq oracle fault db pid uid hp hu]
      show (auto_run_loop oracle fault db pid p.idea_source
        [1, 2, 3, 4, 5, 6]).2.getLast? = _
      rw [hEq]
      exact List.getLast?_concat _
  · intro hnone hlt6
    have hProj := auto_run_loop_nofault oracle fault pid p.idea_source
      [1, 2, 3, 4, 5, 6] db p hp (fun x _ => hnone x)
    have hfold : [1, 2, 3, 4, 5, 6].foldl max p.stage = 6 := by
      show max (max (max (max (max (max p.stage 1) 2) 3) 4) 5) 6 = 6
      omega
    rw [hfold] at hProj
    constructor
    · rw [auto_run_project_eq oracle fault db pid uid hp hu]
      exact hProj
    · rw [auto_run_project_eq oracle fault db pid uid hp hu]
      show ((((auto_run_loop oracle fault db pid p.idea_source
        [1, 2, 3, 4, 5, 6]).1.getProject pid).map
        (fun q => q.stage)).getD 0) = 6
      rw [hProj]
      rfl

/-- A stage-level fault at stage 2 and none elsewhere. -/
def wfaultC10 : Nat → Option String :=
  fun x => if x = 2 then some "boom2" else none

/-- C10 witness: aborting at stage 2 leaves the project at stage 2 and
reports `final_stage = 2`. -/
theorem C10_stage_committed_before_tasks_witness :
    (auto_run_project (fun _ => ExecOutcome.fail "nope") wfaultC10 wdbC4
      1 1).2.finalStage = 2 ∧
    (((auto_run_project (fun _ => ExecOutcome.fail "nope") wfaultC10 wdbC4
      1 1).1.getProject 1).map (fun q => q.stage)) = some 2 ∧
    (auto_run_project (fun _ => ExecOutcome.fail "nope") wfaultC10 wdbC4
      1 1).2.entries.getLast? =
      some { stage := 2, status := "failed", error := some "boom2",
             result := none } :=
  (C10_stage_committed_before_tasks (fun _ => ExecOutcome.fail "nope")
    wfaultC10 wdbC4 1 1 2 "boom2" (by rfl) rfl).1 (by decide) (by decide)
    (by decide) (by rfl)

/-! ### Stage idempotence -/

theorem hasAgent_congr {db1 db2 : DB} (h : db1.agents = db2.agents)
    (aid : Nat) : db1.hasAgent aid = db2.hasAgent aid := by
  unfold DB.hasAgent
  rw [getAgent_congr h]

theorem taskIds_eq_of_taskKeys {db1 db2 : DB}
    (h : db1.tasks.map taskKey = db2.tasks.map taskKey) :
    db1.tasks.map (fun t => t.id) = db2.tasks.map (fun t => t.id) := by
  have e : ∀ (l : List Task), l.map (fun t => t.id) =
      (l.map taskKey).map (fun k => k.1) := by
    intro l
    rw [List.map_map]
    rfl
  rw [e, e, h]

theorem agentIds_eq_of_agentKeys {db1 db2 : DB}
    (h : db1.agents.map agentKey = db2.agents.map agentKey) :
    db1.agents.map (fun a => a.id) = db2.agents.map (fun a => a.id) := by
  have e : ∀ (l : List Agent), l.map (fun a => a.id) =
      (l.map agentKey).map (fun k => k.1) := by
    intro l
    rw [List.map_map]
    rfl
  rw [e, e, h]

/-- Well-formedness only depends on the stable key view of the state. -/
theorem WF_transfer {db1 db2 : DB}
    (ht : db1.tasks.map taskKey = db2.tasks.map taskKey)
    (ha : db1.agents.map agentKey = db2.agents.map agentKey)
    (hn : db1.nextTaskId = db2.nextTaskId)
    (h : db2.WF) : db1.WF := by
  obtain ⟨h1, h2, h3⟩ := h
  refine ⟨?_, ?_, ?_⟩
  · rw [taskIds_eq_of_taskKeys ht]
    exact h1
  · intro t htm
    have hmm : t.id ∈ db1.tasks.map (fun t => t.id) :=
      List.mem_map_of_mem _ htm
    rw [taskIds_eq_of_taskKeys ht] at hmm
    obtain ⟨u, hu, heq⟩ := List.mem_map.mp hmm
    rw [hn, ← heq]
    exact h2 u hu
  · rw [agentIds_eq_of_agentKeys ha]
    exact h3

/-- The canonical-task invariant: among the tasks that carry an agent,
no two rows share the same (project, agent, stage) triple. -/
def atMostOneTaskPerTriple (db : DB) : Prop :=
  (db.tasks.filter (fun t => t.agent_id.isSome)).Pairwise
    (fun t u => (t.project_id, t.agent_id, t.stage) ≠
      (u.project_id, u.agent_id, u.stage))

instance (db : DB) : Decidable (atMostOneTaskPerTriple db) := by
  unfold atMostOneTaskPerTriple
  infer_instance

theorem atMostOne_congr {db1 db2 : DB} (h : db1.tasks = db2.tasks)
    (hinv : atMostOneTaskPerTriple db2) : atMostOneTaskPerTriple db1 := by
  unfold atMostOneTaskPerTriple at hinv ⊢
  rw [h]
  exact hinv

/-- The invariant only depends on the stable columns of the task table. -/
theorem atMostOne_of_taskKeys {db1 db2 : DB}
    (h : db1.tasks.map taskKey = db2.tasks.map taskKey)
    (hinv : atMostOneTaskPerTriple db2) : atMostOneTaskPerTriple db1 := by
  have e : ∀ (l : List Task),
      ((l.filter (fun t => t.agent_id.isSome)).Pairwise
        (fun t u => (t.project_id, t.agent_id, t.stage) ≠
          (u.project_id, u.agent_id, u.stage))) ↔
      (((l.map taskKey).filter (fun k => k.2.2.1.isSome)).Pairwise
        (fun k k2 => (k.2.1, k.2.2.1, k.2.2.2) ≠
          (k2.2.1, k2.2.2.1, k2.2.2.2))) := by
    intro l
    rw [filter_map_eq, List.pairwise_map]
    exact Iff.rfl
  unfold atMostOneTaskPerTriple at hinv ⊢
  rw [e, h, ← e]
  exact hinv

theorem mkStageTasks_agent_ids (pid s : Nat) :
    ∀ (nid : Nat) (l : List Agent) (t : Task), t ∈ mkStageTasks pid s nid l →
      ∃ a ∈ l, t.agent_id = some a.id := by
  intro nid l
  induction l generalizing nid with
  | nil => intro t h; cases h
  | cons a rest ih =>
    intro t h
    cases List.mem_cons.mp h with
    | inl h1 => exact ⟨a, by simp, by rw [h1]⟩
    | inr h2 =>
      obtain ⟨b, hb, hbe⟩ := ih (nid + 1) t h2
      exact ⟨b, List.mem_cons_of_mem _ hb, hbe⟩

/-- Freshly created stage tasks have pairwise distinct triples: one task
per active agent of the stage, and agent ids are unique. -/
theorem mkStageTasks_triples (pid s : Nat) :
    ∀ (nid : Nat) (l : List Agent), (l.map (fun a => a.id)).Nodup →
      (mkStageTasks pid s nid l).Pairwise
        (fun t u => (t.project_id, t.agent_id, t.stage) ≠
          (u.project_id, u.agent_id, u.stage)) := by
  intro nid l
  induction l generalizing nid with
  | nil => intro h; exact List.Pairwise.nil
  | cons a rest ih =>
    intro h
    rw [List.map_cons, List.nodup_cons] at h
    refine List.Pairwise.cons ?_ (ih (nid + 1) h.2)
    intro u hu hcontra
    obtain ⟨b, hb, hbe⟩ := mkStageTasks_agent_ids pid s (nid + 1) rest u hu
    have h1 : some a.id = u.agent_id := by
      have h2 := congrArg (fun x : Nat × Option Nat × Nat => x.2.1) hcontra
      simpa using h2
    rw [hbe] at h1
    have h3 : a.id = b.id := by
      injection h1
    apply h.1
    rw [h3]
    exact List.mem_map_of_mem _ hb

/-- `ensureTasks` preserves the canonical-task invariant: when it
creates tasks, the stage's (project, stage) slice was empty and the new
tasks carry pairwise distinct agents. -/
theorem ensureTasks_triple (db : DB) (pid s : Nat) (hwf : db.WF)
    (hinv : atMostOneTaskPerTriple db) :
    atMostOneTaskPerTriple (ensureTasks db pid s).1 := by
  by_cases h : (db.tasks.filter
      (fun t => t.project_id == pid && t.stage == s)).isEmpty = true
  · have hempty : db.tasks.filter
        (fun t => t.project_id == pid && t.stage == s) = [] :=
      List.isEmpty_iff.mp h
    have htasks := (ensureTasks_of_empty db pid s h).1
    unfold atMostOneTaskPerTriple at hinv ⊢
    rw [htasks, List.filter_append]
    refine List.pairwise_append.mpr ⟨hinv, ?_, ?_⟩
    · refine List.Pairwise.sublist (List.filter_sublist _) ?_
      exact mkStageTasks_triples pid s db.nextTaskId _
        (hwf.2.2.sublist ((List.filter_sublist _).map _))
    · intro a ha b hb hcontra
      have hamem := List.mem_filter.mp ha
      have hbmem := List.mem_filter.mp hb
      obtain ⟨hbp, hbs, _⟩ :=
        mkStageTasks_fields pid s db.nextTaskId _ b hbmem.1
      have hap : a.project_id = pid := by
        have h2 := congrArg (fun x : Nat × Option Nat × Nat => x.1) hcontra
        simpa [hbp] using h2
      have has2 : a.stage = s := by
        have h2 := congrArg (fun x : Nat × Option Nat × Nat => x.2.2) hcontra
        simpa [hbs] using h2
      have hmem2 : a ∈ db.tasks.filter
          (fun t => t.project_id == pid && t.stage == s) :=
        List.mem_filter.mpr ⟨hamem.1, by simp [hap, has2]⟩
      rw [hempty] at hmem2
      cases hmem2
  · rw [ensureTasks_of_nonempty db pid s h]
    exact hinv

/-- Re-entering a stage after a state change that kept the stable task
and agent columns: `ensureTasks` reuses the existing tasks — it returns
the same id list as the original call and creates nothing. -/
theorem ensureTasks_again {db db1 : DB} (pid s : Nat)
    (ht : db1.tasks.map taskKey = (ensureTasks db pid s).1.tasks.map taskKey)
    (ha : db1.agents.map agentKey = db.agents.map agentKey) :
    (ensureTasks db1 pid s).2 = (ensureTasks db pid s).2 ∧
    (ensureTasks db1 pid s).1.tasks = db1.tasks := by
  have hstid : stageTaskIds db1 pid s = (ensureTasks db pid s).2 := by
    rw [stageTaskIds_of_taskKeys ht pid s, ← ensureTasks_ids db pid s]
  by_cases htids : (ensureTasks db pid s).2 = []
  · have hfilt1 : db1.tasks.filter
        (fun t => t.project_id == pid && t.stage == s) = [] := by
      have h2 : stageTaskIds db1 pid s = [] := by rw [hstid, htids]
      unfold stageTaskIds at h2
      exact List.map_eq_nil_iff.mp h2
    have hagF : db.agents.filter (fun a => a.stage == s && a.is_active)
        = [] := by
      by_cases hemp : (db.tasks.filter
          (fun t => t.project_id == pid && t.stage == s)).isEmpty = true
      · have h2 := (ensureTasks_of_empty db pid s hemp).2
        rw [htids] at h2
        have h3 : mkStageTasks pid s db.nextTaskId
            (db.agents.filter (fun a => a.stage == s && a.is_active)) = [] :=
          List.map_eq_nil_iff.mp h2.symm
        have h4 := mkStageTasks_length pid s db.nextTaskId
          (db.agents.filter (fun a => a.stage == s && a.is_active))
        rw [h3] at h4
        exact List.length_eq_zero.mp h4.symm
      · have h2 : (ensureTasks db pid s).2 = stageTaskIds db pid s := by
          rw [ensureTasks_of_nonempty db pid s hemp]
        rw [htids] at h2
        have h4 : db.tasks.filter
            (fun t => t.project_id == pid && t.stage == s) = [] := by
          unfold stageTaskIds at h2
          exact List.map_eq_nil_iff.mp h2.symm
        rw [h4] at hemp
        exact absurd rfl hemp
    have hagF1 : db1.agents.filter (fun a => a.stage == s && a.is_active)
        = [] := by
      have hlen := agents_filter_length_transfer ha s
      rw [hagF] at hlen
      exact List.length_eq_zero.mp hlen
    have hisE : (db1.tasks.filter
        (fun t => t.project_id == pid && t.stage == s)).isEmpty = true := by
      rw [hfilt1]
      rfl
    obtain ⟨hA, hB⟩ := ensureTasks_of_empty db1 pid s hisE
    constructor
    · rw [hB, hagF1, htids]
      rfl
    · rw [hA, hagF1]
      exact List.append_nil db1.tasks
  · have hne : ¬ (db1.tasks.filter
        (fun t => t.project_id == pid && t.stage == s)).isEmpty = true := by
      intro hisE
      have h0 : db1.tasks.filter
          (fun t => t.project_id == pid && t.stage == s) = [] :=
        List.isEmpty_iff.mp hisE
      have h1 : stageTaskIds db1 pid s = [] := by
        unfold stageTaskIds
        rw [h0]
        rfl
      rw [hstid] at h1
      exact htids h1
    rw [ensureTasks_of_nonempty db1 pid s hne]
    exact ⟨hstid, rfl⟩

/-- C1: with no intervening state change, running a stage twice in a
row (`process_project_pipeline` at the same project and stage) is
idempotent on the task table: the second call's `ensureTasks` returns
exactly the first call's task-id list (reuse, no duplicates), the
second call leaves the task table unchanged, every task the second
call hands to the executor was not `completed` (completed tasks are
skipped, line 202), and the at-most-one-task-per-(project, agent,
stage) invariant holds after both runs. -/
theorem C1_stage_idempotent (oracle : Nat → ExecOutcome) (db : DB)
    (pid s : Nat) (hwf : db.WF) {p : Project}
    (hp : db.getProject pid = some p)
    (hinv : atMostOneTaskPerTriple db) :
    (ensureTasks (process_project_pipeline oracle db pid s).1 pid s).2 =
      (ensureTasks db pid s).2 ∧
    (process_project_pipeline oracle
        (process_project_pipeline oracle db pid s).1 pid s).1.tasks =
      (process_project_pipeline oracle db pid s).1.tasks ∧
    (∀ tid ∈ (process_project_pipeline oracle
        (process_project_pipeline oracle db pid s).1 pid s).2.2, ∀ t,
      (process_project_pipeline oracle db pid s).1.getTask tid = some t →
      t.status ≠ "completed") ∧
    atMostOneTaskPerTriple (process_project_pipeline oracle
        (process_project_pipeline oracle db pid s).1 pid s).1 := by
  have hfst : (process_project_pipeline oracle db pid s).1 =
      (runTasks oracle false (ensureTasks db pid s).1 pid p.idea_source
        (ensureTasks db pid s).2).1.updateProject pid
        (fun q => { q with stage := s,
                           status := (stageStatusMap s).getD q.status }) := by
    rw [pipeline_eq oracle db pid s hp]
  have hkeys : (process_project_pipeline oracle db pid s).1.tasks.map taskKey =
      (ensureTasks db pid s).1.tasks.map taskKey := by
    rw [hfst]
    show (runTasks oracle false (ensureTasks db pid s).1 pid p.idea_source
      (ensureTasks db pid s).2).1.tasks.map taskKey = _
    exact runTasks_taskKeys oracle false pid p.idea_source _ _
  have hagents : (process_project_pipeline oracle db pid s).1.agents.map
      agentKey = db.agents.map agentKey := by
    rw [hfst]
    show (runTasks oracle false (ensureTasks db pid s).1 pid p.idea_source
      (ensureTasks db pid s).2).1.agents.map agentKey = _
    rw [runTasks_agentKeys oracle false pid p.idea_source _ _,
      ensureTasks_agents]
  have hnid : (process_project_pipeline oracle db pid s).1.nextTaskId =
      (ensureTasks db pid s).1.nextTaskId := by
    rw [hfst]
    show (runTasks oracle false (ensureTasks db pid s).1 pid p.idea_source
      (ensureTasks db pid s).2).1.nextTaskId = _
    exact runTasks_nextTaskId oracle false pid p.idea_source _ _
  have hWF1 : (process_project_pipeline oracle db pid s).1.WF :=
    WF_transfer hkeys
      (by rw [hagents, ensureTasks_agents db pid s]) hnid
      (ensureTasks_WF db pid s hwf)
  obtain ⟨htids2, htasks2⟩ := ensureTasks_again pid s hkeys hagents
  have hsettle : ∀ tid ∈ (ensureTasks db pid s).2, ∀ t,
      (process_project_pipeline oracle db pid s).1.getTask tid = some t →
      settledTask oracle (ensureTasks db pid s).1.hasAgent t := by
    intro tid hmem t ht
    rw [hfst] at ht
    have ht2 : (runTasks oracle false (ensureTasks db pid s).1 pid
        p.idea_source (ensureTasks db pid s).2).1.getTask tid = some t := ht
    exact runTasks_settles oracle false pid p.idea_source _ _ tid hmem t ht2
  have hp1 : (process_project_pipeline oracle db pid s).1.getProject pid =
      some { p with stage := s, status := (stageStatusMap s).getD p.status } :=
    pipeline_getProject oracle db pid s hp
  have hnd2 : ((ensureTasks (process_project_pipeline oracle db pid s).1
      pid s).1.tasks.map (fun t => t.id)).Nodup := by
    have e := congrArg (List.map (fun t : Task => t.id)) htasks2
    rw [e]
    exact hWF1.1
  have hset2 : ∀ tid ∈ (ensureTasks db pid s).2, ∀ t,
      (ensureTasks (process_project_pipeline oracle db pid s).1
        pid s).1.getTask tid = some t →
      settledTask oracle
        (ensureTasks (process_project_pipeline oracle db pid s).1
          pid s).1.hasAgent t := by
    intro tid hmem t ht
    rw [getTask_congr htasks2 tid] at ht
    refine settledTask_congr ?_ (hsettle tid hmem t ht)
    intro x
    have e1 : (ensureTasks db pid s).1.hasAgent x = db.hasAgent x :=
      hasAgent_congr (ensureTasks_agents db pid s) x
    have e2 : (ensureTasks (process_project_pipeline oracle db pid s).1
        pid s).1.hasAgent x =
        (process_project_pipeline oracle db pid s).1.hasAgent x :=
      hasAgent_congr (ensureTasks_agents _ pid s) x
    have e3 : (process_project_pipeline oracle db pid s).1.hasAgent x =
        db.hasAgent x := by
      rw [hfst]
      show (runTasks oracle false (ensureTasks db pid s).1 pid p.idea_source
        (ensureTasks db pid s).2).1.hasAgent x = _
      rw [runTasks_hasAgent oracle false pid p.idea_source _ _ x]
      exact e1
    rw [e1, e2, e3]
  have hset2b : ∀ tid ∈ (ensureTasks (process_project_pipeline oracle db
      pid s).1 pid s).2, ∀ t,
      (ensureTasks (process_project_pipeline oracle db pid s).1
        pid s).1.getTask tid = some t →
      settledTask oracle
        (ensureTasks (process_project_pipeline oracle db pid s).1
          pid s).1.hasAgent t := by
    rw [htids2]
    exact hset2
  obtain ⟨hT2, hL2⟩ := runTasks_of_settled oracle false pid
    ({ p with stage := s,
              status := (stageStatusMap s).getD p.status }).idea_source
    (ensureTasks (process_project_pipeline oracle db pid s).1 pid s).2
    (ensureTasks (process_project_pipeline oracle db pid s).1 pid s).1
    hnd2 hset2b
  have hfst2 : (process_project_pipeline oracle
      (process_project_pipeline oracle db pid s).1 pid s).1 =
      (runTasks oracle false
        (ensureTasks (process_project_pipeline oracle db pid s).1 pid s).1 pid
        ({ p with stage := s,
                  status := (stageStatusMap s).getD p.status }).idea_source
        (ensureTasks (process_project_pipeline oracle db pid s).1 pid
          s).2).1.updateProject pid
        (fun q => { q with stage := s,
                           status := (stageStatusMap s).getD q.status }) := by
    rw [pipeline_eq oracle (process_project_pipeline oracle db pid s).1 pid s
      hp1]
  have hlog2 : (process_project_pipeline oracle
      (process_project_pipeline oracle db pid s).1 pid s).2.2 =
      (runTasks oracle false
        (ensureTasks (process_project_pipeline oracle db pid s).1 pid s).1 pid
        ({ p with stage := s,
                  status := (stageStatusMap s).getD p.status }).idea_source
        (ensureTasks (process_project_pipeline oracle db pid s).1 pid
          s).2).2.2 := by
    rw [pipeline_eq oracle (process_project_pipeline oracle db pid s).1 pid s
      hp1]
  have htt : (process_project_pipeline oracle
      (process_project_pipeline oracle db pid s).1 pid s).1.tasks =
      (process_project_pipeline oracle db pid s).1.tasks := by
    rw [hfst2]
    have h9 : (runTasks oracle false
        (ensureTasks (process_project_pipeline oracle db pid s).1 pid s).1 pid
        ({ p with stage := s,
                  status := (stageStatusMap s).getD p.status }).idea_source
        (ensureTasks (process_project_pipeline oracle db pid s).1 pid
          s).2).1.tasks =
        (process_project_pipeline oracle db pid s).1.tasks := by
      rw [hT2, htasks2]
    exact h9
  refine ⟨htids2, htt, ?_, ?_⟩
  · intro tid hmem t ht
    rw [hlog2] at hmem
    refine hL2 tid hmem t ?_
    rw [getTask_congr htasks2 tid]
    exact ht
  · have hinv1 : atMostOneTaskPerTriple (ensureTasks db pid s).1 :=
      ensureTasks_triple db pid s hwf hinv
    have hinvR : atMostOneTaskPerTriple
        (process_project_pipeline oracle db pid s).1 :=
      atMostOne_of_taskKeys hkeys hinv1
    exact atMostOne_congr htt hinvR

/-- A fresh project with two active stage-1 agents, for the idempotence
witness. -/
def wdbC1 : DB :=
  { projects := [{ id := 1, user_id := 1 }],
    agents := [{ id := 1, name := "A", stage := 1 },
               { id := 2, name := "B", stage := 1 }],
    tasks := [], executions := [], nextTaskId := 1, nextExecId := 1 }

/-- An executor stub that succeeds for agent 1 and fails for agent 2. -/
def worcC1 : Nat → ExecOutcome :=
  fun aid => if aid = 1 then ExecOutcome.ok else ExecOutcome.fail "quota"

/-- C1 witness: the idempotence theorem at a concrete two-agent stage
where one agent succeeds and one fails. -/
theorem C1_stage_idempotent_witness :
    (ensureTasks (process_project_pipeline worcC1 wdbC1 1 1).1 1 1).2 =
      (ensureTasks wdbC1 1 1).2 ∧
    (process_project_pipeline worcC1
        (process_project_pipeline worcC1 wdbC1 1 1).1 1 1).1.tasks =
      (process_project_pipeline worcC1 wdbC1 1 1).1.tasks ∧
    (∀ tid ∈ (process_project_pipeline worcC1
        (process_project_pipeline worcC1 wdbC1 1 1).1 1 1).2.2, ∀ t,
      (process_project_pipeline worcC1 wdbC1 1 1).1.getTask tid = some t →
      t.status ≠ "completed") ∧
    atMostOneTaskPerTriple (process_project_pipeline worcC1
        (process_project_pipeline worcC1 wdbC1 1 1).1 1 1).1 :=
  C1_stage_idempotent worcC1 wdbC1 1 1 (by decide) (by rfl) (by decide)

end BillionDollar
